import Mathlib

/-!
Shallow embedding of the Nine Men's Morris rules engine
(`src/nine_mens_morris.py`) and verification of its specification claims.

Modelling conventions:
* A Python list of characters becomes `List Char`; the empty cell is `'.'`.
* Python integer indexing into a list (which wraps negative indices and
  raises `IndexError` otherwise) is modelled by `pyIdx` / `pyGet` / `pySet`;
  a raised exception is modelled as `none`.
* Mutating methods become state-passing functions; a method that can raise
  returns `Option`.  Methods that both return a boolean and mutate return
  `Option (Bool × _)`.
* The adjacency and mill tables contain only literal constants in `[0, 23]`,
  so indexing the board with one of their entries on the 24-cell board can
  never raise; those interior accesses use the total `cellAt`.
* `print` calls in the source have no effect on game state and are dropped.
-/

namespace NMM

/-- Python-style index resolution into a list of length `n`:
indices in `[0, n)` are used as-is, indices in `[-n, 0)` wrap by `+ n`,
anything else raises `IndexError` (modelled as `none`). -/
def pyIdx (n : Nat) (i : Int) : Option Nat :=
  if 0 ≤ i ∧ i < (n : Int) then some i.toNat
  else if -(n : Int) ≤ i ∧ i < 0 then some (i + (n : Int)).toNat
  else none

/-- The board: a list of 24 single-character cells, `'.'` when empty. -/
abbrev Board := List Char

/-- Total in-range cell read (used only where the source indexes with a
loop variable or a table constant that is known to be in range). -/
def cellAt (b : Board) (j : Nat) : Char :=
  (b.get? j).getD '.'

/-- Python `b[i]` for an arbitrary integer `i`. -/
def pyGet (b : Board) (i : Int) : Option Char :=
  (pyIdx b.length i).bind fun j => b.get? j

/-- Python `b[i] = c` for an arbitrary integer `i`. -/
def pySet (b : Board) (i : Int) (c : Char) : Option Board :=
  (pyIdx b.length i).map fun j => b.set j c

/-- Player record: symbol and the two piece counters
(`Player.__init__` / counters only; name and human/ai tag carry no logic). -/
structure PlayerState where
  player_symbol : Char
  pieces_in_hand : Nat
  pieces_on_board : Nat
deriving DecidableEq

/-- `Player.place_piece`: move a piece from hand to board bookkeeping. -/
def place_piece (p : PlayerState) : Bool × PlayerState :=
  if p.pieces_in_hand > 0 then
    (true, { p with pieces_in_hand := p.pieces_in_hand - 1,
                    pieces_on_board := p.pieces_on_board + 1 })
  else (false, p)

/-- `Player.remove_piece`: decrease the on-board counter. -/
def remove_piece (p : PlayerState) : Bool × PlayerState :=
  if p.pieces_on_board > 0 then
    (true, { p with pieces_on_board := p.pieces_on_board - 1 })
  else (false, p)

/-- `BoardManager.make_new_board`. -/
def make_new_board : Board := List.replicate 24 '.'

/-- `BoardManager.is_position_empty`. -/
def is_position_empty (b : Board) (position : Int) : Option Bool :=
  (pyGet b position).map fun c => decide (c = '.')

/-- `BoardManager.who_on_position`. -/
def who_on_position (b : Board) (position : Int) : Option Char :=
  pyGet b position

/-- `BoardManager.get_players_positions`. -/
def get_players_positions (b : Board) (player_symbol : Char) : List Int :=
  ((List.range b.length).filter fun i => cellAt b i == player_symbol).map Int.ofNat

/-- `BoardManager.adjacent_arrays` (class constant, 24 entries). -/
def adjacent_arrays : List (List Int) :=
  [[1, 9], [0, 2, 4], [1, 14],
   [10, 4], [1, 3, 7, 5], [4, 13],
   [7, 11], [4, 6, 8], [7, 12],
   [0, 10, 21], [3, 9, 18, 11], [6, 10, 15],
   [8, 13, 17], [5, 12, 20, 14], [2, 13, 23],
   [11, 16], [15, 17, 19], [12, 16],
   [10, 19], [16, 18, 22, 20], [13, 19],
   [9, 22], [19, 21, 23], [14, 22]]

/-- `BoardManager.get_empty_positions`. -/
def get_empty_positions (b : Board) : List Int :=
  ((List.range b.length).filter fun i => cellAt b i == '.').map Int.ofNat

/-- `BoardManager.get_empty_adjacent_positions`: `adjacent_arrays[position]`
is a Python index into the 24-entry table; the entries themselves are
constants in `[0, 23]`. -/
def get_empty_adjacent_positions (b : Board) (position : Int) : Option (List Int) :=
  (pyIdx 24 position).map fun j =>
    (adjacent_arrays.getD j []).filter fun a => cellAt b a.toNat == '.'

/-- `BoardManager.add_player_piece`. -/
def add_player_piece (b : Board) (position : Int) (player_symbol : Char) :
    Option (Bool × Board) :=
  (is_position_empty b position).bind fun e =>
    if e then (pySet b position player_symbol).map fun b2 => (true, b2)
    else some (false, b)

/-- `BoardManager.remove_player_piece`. -/
def remove_player_piece (b : Board) (position : Int) : Option (Bool × Board) :=
  (is_position_empty b position).bind fun e =>
    if e then some (false, b)
    else (pySet b position '.').map fun b2 => (true, b2)

/-- `BoardManager.move_player_piece`; the `and`-chain of the source is kept
as nested short-circuit tests, so a later conjunct that would raise is not
evaluated when an earlier one is already false. -/
def move_player_piece (b : Board) (from_position to_position : Int)
    (player_symbol : Char) : Option (Bool × Board) :=
  (pyGet b from_position).bind fun cf =>
    if cf = player_symbol then
      (is_position_empty b to_position).bind fun e =>
        if e then
          (pyIdx 24 from_position).bind fun jf =>
            if to_position ∈ adjacent_arrays.getD jf [] then
              (pySet b from_position '.').bind fun b1 =>
                (pySet b1 to_position player_symbol).map fun b2 => (true, b2)
            else some (false, b)
        else some (false, b)
    else some (false, b)

/-- `BoardManager.fly_player_piece`. -/
def fly_player_piece (b : Board) (from_position to_position : Int)
    (player_symbol : Char) : Option (Bool × Board) :=
  (pyGet b from_position).bind fun cf =>
    if cf = player_symbol then
      (is_position_empty b to_position).bind fun e =>
        if e then
          (pySet b from_position '.').bind fun b1 =>
            (pySet b1 to_position player_symbol).map fun b2 => (true, b2)
        else some (false, b)
    else some (false, b)

/-- `GamePhase` enum. -/
inductive GamePhase
  | PLACING
  | MOVING
  | FLYING
  | REMOVING_PIECE
  | GAME_OVER
deriving DecidableEq

/-- Identity of one of the two player slots (`current_player is player1`
in the source is object identity between the two fixed player objects). -/
inductive Who
  | P1
  | P2
deriving DecidableEq

/-- The slot that is not `w`. -/
def otherWho : Who → Who
  | .P1 => .P2
  | .P2 => .P1

/-- One entry of `game_history`:
`[board copy, current player, current phase, position]`. -/
structure HistEntry where
  board : Board
  player : Who
  phase : GamePhase
  position : Int
deriving DecidableEq

/-- The full `Game` state. -/
structure GameState where
  player1 : PlayerState
  player2 : PlayerState
  board : Board
  current : Who
  current_phase : GamePhase
  selected_piece : Option Int
  game_history : List HistEntry
deriving DecidableEq

/-- Read a player slot. -/
def getPl (st : GameState) : Who → PlayerState
  | .P1 => st.player1
  | .P2 => st.player2

/-- Write a player slot. -/
def setPl (st : GameState) : Who → PlayerState → GameState
  | .P1, p => { st with player1 := p }
  | .P2, p => { st with player2 := p }

/-- `self.current_player`. -/
def current_player (st : GameState) : PlayerState :=
  getPl st st.current

/-- The `opponent_player` property. -/
def opponent_player (st : GameState) : PlayerState :=
  getPl st (otherWho st.current)

/-- `Game.switch_player`. -/
def switch_player (st : GameState) : GameState :=
  { st with current := otherWho st.current }

/-- `Game.__init__` on two player objects (piece counters are reset). -/
def initGame (p1 p2 : PlayerState) : GameState :=
  { player1 := { p1 with pieces_in_hand := 9, pieces_on_board := 0 }
    player2 := { p2 with pieces_in_hand := 9, pieces_on_board := 0 }
    board := make_new_board
    current := .P1
    current_phase := .PLACING
    selected_piece := none
    game_history := [] }

/-- `Game.mills_arrays` (class constant, 16 triples). -/
def mills_arrays : List (List Int) :=
  [[0, 1, 2], [3, 4, 5], [6, 7, 8], [9, 10, 11],
   [12, 13, 14], [15, 16, 17], [18, 19, 20], [21, 22, 23],
   [0, 9, 21], [3, 10, 18], [6, 11, 15], [1, 4, 7],
   [16, 19, 22], [8, 12, 17], [5, 13, 20], [2, 14, 23]]

/-- `Game.is_position_part_of_mill`; the inner accesses `board[pos]` use
mill-table constants in `[0, 23]` and cannot raise. -/
def is_position_part_of_mill (b : Board) (location : Int) : Option Bool :=
  (who_on_position b location).map fun symbol_at_pos =>
    if symbol_at_pos = '.' then false
    else mills_arrays.any fun mill =>
      decide (location ∈ mill) &&
        mill.all fun pos => cellAt b pos.toNat == symbol_at_pos

/-- `Game.get_allowed_moves`. -/
def get_allowed_moves (st : GameState) (position_just_placed : Int) :
    Option (List Int) :=
  if st.current_phase = .PLACING then some (get_empty_positions st.board)
  else if st.current_phase = .FLYING then some (get_empty_positions st.board)
  else if st.current_phase = .MOVING then
    get_empty_adjacent_positions st.board position_just_placed
  else some []

/-- The `for pos in opponent_positions` loop body of
`Game.check_win_condition`: true as soon as some position has a non-empty
allowed-move list (the source then returns False from the loop). -/
def any_opponent_move (st : GameState) : List Int → Option Bool
  | [] => some false
  | pos :: rest =>
    (get_allowed_moves st pos).bind fun moves =>
      if moves ≠ [] then some true else any_opponent_move st rest

/-- The part of `Game.check_win_condition` after the material check
(everything from `opponent_positions = ...` on). -/
def check_win_rest (st : GameState) : Option Bool :=
  let opponent_positions :=
    get_players_positions st.board (opponent_player st).player_symbol
  if opponent_positions = [] then some false
  else
    (any_opponent_move st opponent_positions).bind fun hasMove =>
      if hasMove then some false
      else if 0 ≤ (current_player st).pieces_in_hand ∨
              0 ≤ (opponent_player st).pieces_in_hand then some false
      else some true

/-- `Game.check_win_condition`: the nested material check first, falling
through into `check_win_rest` when it does not fire. -/
def check_win_condition (st : GameState) : Option Bool :=
  if (current_player st).pieces_in_hand = 0 ∧
     (opponent_player st).pieces_in_hand = 0 then
    if (opponent_player st).pieces_on_board < 3 then some true
    else check_win_rest st
  else check_win_rest st

/-- `Game.update_game_phase`. -/
def update_game_phase (st : GameState) : Option GameState :=
  (check_win_condition st).map fun w =>
    if w then { st with current_phase := .GAME_OVER }
    else if (current_player st).pieces_in_hand > 0 then
      { st with current_phase := .PLACING }
    else if (current_player st).pieces_on_board = 3 then
      { st with current_phase := .FLYING }
    else { st with current_phase := .MOVING }

/-- The `for pos in opponent_positions` loop of `Game.get_allowed_removals`,
collecting the positions that are not part of a mill. -/
def removal_filter (st : GameState) : List Int → Option (List Int)
  | [] => some []
  | pos :: rest =>
    (is_position_part_of_mill st.board pos).bind fun inMill =>
      (removal_filter st rest).map fun l =>
        if inMill then l else pos :: l

/-- `Game.get_allowed_removals`. -/
def get_allowed_removals (st : GameState) : Option (List Int) :=
  let opponent_positions :=
    get_players_positions st.board (opponent_player st).player_symbol
  (removal_filter st opponent_positions).map fun non_mill_positions =>
    if non_mill_positions ≠ [] then non_mill_positions else opponent_positions

/-- `Game.finalize_turn`. -/
def finalize_turn (st : GameState) (position : Int) : Option GameState :=
  (check_win_condition st).bind fun w =>
    if w then some { st with current_phase := .GAME_OVER }
    else
      (is_position_part_of_mill st.board position).bind fun m =>
        if m then some { st with current_phase := .REMOVING_PIECE }
        else update_game_phase (switch_player st)

/-- `Game.handle_placing`; the boolean result of `Player.place_piece` is
discarded, exactly as in the source. -/
def handle_placing (st : GameState) (position : Int) :
    Option (Bool × GameState) :=
  (add_player_piece st.board position (current_player st).player_symbol).bind
    fun r =>
      if r.1 then
        let st1 := setPl { st with board := r.2 } st.current
          (place_piece (current_player st)).2
        (finalize_turn st1 position).map fun st2 => (true, st2)
      else some (false, { st with board := r.2 })

/-- `Game.handle_moving`. -/
def handle_moving (st : GameState) (position : Int) :
    Option (Bool × GameState) :=
  match st.selected_piece with
  | none =>
    (who_on_position st.board position).bind fun c =>
      if c = (current_player st).player_symbol then
        (get_empty_adjacent_positions st.board position).map fun adjEmpty =>
          if adjEmpty ≠ [] then (true, { st with selected_piece := some position })
          else (false, st)
      else some (false, st)
  | some sel =>
    if position = sel then some (true, { st with selected_piece := none })
    else
      (move_player_piece st.board sel position
          (current_player st).player_symbol).bind fun r =>
        if r.1 then
          (finalize_turn { st with board := r.2 } position).map fun st2 =>
            (true, { st2 with selected_piece := none })
        else some (false, { st with board := r.2 })

/-- `Game.handle_flying`. -/
def handle_flying (st : GameState) (position : Int) :
    Option (Bool × GameState) :=
  match st.selected_piece with
  | none =>
    (who_on_position st.board position).bind fun c =>
      if c = (current_player st).player_symbol then
        some (true, { st with selected_piece := some position })
      else some (false, st)
  | some sel =>
    if position = sel then some (true, { st with selected_piece := none })
    else
      (fly_player_piece st.board sel position
          (current_player st).player_symbol).bind fun r =>
        if r.1 then
          (finalize_turn { st with board := r.2 } position).map fun st2 =>
            (true, { st2 with selected_piece := none })
        else some (false, { st with board := r.2 })

/-- `Game.handle_removing_piece`; the `check_win_condition` call after the
removal only prints, but it is kept in the dispatch chain. -/
def handle_removing_piece (st : GameState) (position : Int) :
    Option (Bool × GameState) :=
  (get_allowed_removals st).bind fun allowed =>
    if position ∈ allowed then
      (remove_player_piece st.board position).bind fun r =>
        if r.1 then
          let st1 := setPl { st with board := r.2 } (otherWho st.current)
            (remove_piece (opponent_player st)).2
          (check_win_condition st1).bind fun _ =>
            (finalize_turn st1 position).map fun st2 => (true, st2)
        else some (false, { st with board := r.2 })
    else some (false, st)

/-- `Game.record_game_action`: append a snapshot of the pre-action state. -/
def record_game_action (st : GameState) (position : Int) : GameState :=
  { st with game_history :=
      st.game_history ++ [⟨st.board, st.current, st.current_phase, position⟩] }

/-- `Game.handle_action`: phase dispatch; every phase except `GAME_OVER`
records before it validates. -/
def handle_action (st : GameState) (position : Int) :
    Option (Bool × GameState) :=
  match st.current_phase with
  | .PLACING => handle_placing (record_game_action st position) position
  | .MOVING => handle_moving (record_game_action st position) position
  | .REMOVING_PIECE => handle_removing_piece (record_game_action st position) position
  | .FLYING => handle_flying (record_game_action st position) position
  | .GAME_OVER => some (false, st)

/-- `Game.undo_action`. -/
def undo_action (st : GameState) : Bool × GameState :=
  match st.game_history.getLast? with
  | none => (false, st)
  | some last_state =>
    (true, { st with game_history := st.game_history.dropLast,
                     board := last_state.board,
                     current := last_state.player,
                     current_phase := last_state.phase })

/-- Number of occupied cells of a board. -/
def occupiedCount (b : Board) : Nat :=
  (b.filter fun c => !(c == '.')).length

/-- Number of cells holding a given symbol. -/
def countSym (b : Board) (c : Char) : Nat :=
  b.count c

/-- Structural part of the state invariant, over the two player records and
the board: a 24-cell board whose cells are empty or one of the two distinct,
non-empty player symbols, each player's on-board counter agreeing with the
number of cells holding their symbol. -/
def InvParts (pl1 pl2 : PlayerState) (b : Board) : Prop :=
  b.length = 24 ∧
  pl1.player_symbol ≠ '.' ∧
  pl2.player_symbol ≠ '.' ∧
  pl1.player_symbol ≠ pl2.player_symbol ∧
  (∀ c ∈ b, c = '.' ∨ c = pl1.player_symbol ∨ c = pl2.player_symbol) ∧
  countSym b pl1.player_symbol = pl1.pieces_on_board ∧
  countSym b pl2.player_symbol = pl2.pieces_on_board

/-- The structural invariant of a game state. -/
def InvB (st : GameState) : Prop :=
  InvParts st.player1 st.player2 st.board

/-- The full invariant: the structural part plus consistency of the stored
phase with the current player's hand (the `PLACING` phase is only ever set
while the current player still has a piece in hand). -/
def Inv (st : GameState) : Prop :=
  InvB st ∧ (st.current_phase = .PLACING → 0 < (current_player st).pieces_in_hand)

instance (pl1 pl2 : PlayerState) (b : Board) : Decidable (InvParts pl1 pl2 b) :=
  decidable_of_iff
    (b.length = 24 ∧
      pl1.player_symbol ≠ '.' ∧
      pl2.player_symbol ≠ '.' ∧
      pl1.player_symbol ≠ pl2.player_symbol ∧
      (∀ c ∈ b, c = '.' ∨ c = pl1.player_symbol ∨ c = pl2.player_symbol) ∧
      countSym b pl1.player_symbol = pl1.pieces_on_board ∧
      countSym b pl2.player_symbol = pl2.pieces_on_board)
    Iff.rfl

instance (st : GameState) : Decidable (InvB st) :=
  decidable_of_iff (InvParts st.player1 st.player2 st.board) Iff.rfl

instance (st : GameState) : Decidable (Inv st) :=
  decidable_of_iff
    (InvB st ∧
      (st.current_phase = .PLACING → 0 < (current_player st).pieces_in_hand))
    Iff.rfl

/-- Modelled from the spec wording of the legal-removal set: a position is
mill-protected when some mill triple containing it is entirely occupied by
the opponent's symbol. -/
def ProtectedSpec (st : GameState) (q : Int) : Prop :=
  ∃ mill ∈ mills_arrays, q ∈ mill ∧
    ∀ r ∈ mill, cellAt st.board r.toNat = (opponent_player st).player_symbol

instance (st : GameState) (q : Int) : Decidable (ProtectedSpec st q) :=
  decidable_of_iff
    (∃ mill ∈ mills_arrays, q ∈ mill ∧
      ∀ r ∈ mill, cellAt st.board r.toNat = (opponent_player st).player_symbol)
    Iff.rfl

/-- A fresh game between standard players `X` and `O`. -/
def stInit : GameState := initGame ⟨'X', 9, 0⟩ ⟨'O', 9, 0⟩

/-- The board holding a single `X` at position 0. -/
def boardX0 : Board := 'X' :: List.replicate 23 '.'

/-- The state reached from `stInit` by the successful action `0`
(X placed at 0, turn passed to O, one snapshot recorded). -/
def stAfter0 : GameState :=
  { player1 := ⟨'X', 8, 1⟩, player2 := ⟨'O', 9, 0⟩,
    board := boardX0,
    current := .P2, current_phase := .PLACING, selected_piece := none,
    game_history := [⟨List.replicate 24 '.', .P1, .PLACING, 0⟩] }

/-- A board with a completed `X` mill on line `[0, 1, 2]`. -/
def boardMill : Board := 'X' :: 'X' :: 'X' :: List.replicate 21 '.'

/-- A state in which every `O` piece is blocked: `O` on 0, 1, 2, 21 with all
their neighbours occupied by `X`, both hands empty, `X` to move. -/
def cexBlocked : GameState :=
  { player1 := ⟨'X', 0, 4⟩, player2 := ⟨'O', 0, 4⟩,
    board := ['O', 'O', 'O', '.', 'X', '.', '.', '.', '.', 'X', '.', '.',
              '.', '.', 'X', '.', '.', '.', '.', '.', '.', 'O', 'X', '.'],
    current := .P1, current_phase := .MOVING, selected_piece := none,
    game_history := [] }

/-- A state in which X's next placement at 2 completes mill `[0, 1, 2]` and
simultaneously empties both hands while O has only 2 pieces on board. -/
def cexMillWin : GameState :=
  { player1 := ⟨'X', 1, 2⟩, player2 := ⟨'O', 0, 2⟩,
    board := ['X', 'X', '.', '.', '.', 'O', '.', '.', '.', '.', '.', '.',
              '.', 'O', '.', '.', '.', '.', '.', '.', '.', '.', '.', '.'],
    current := .P1, current_phase := .PLACING, selected_piece := none,
    game_history := [] }

/-- An empty-board state whose current player has an empty hand. -/
def stHand0 : GameState :=
  { player1 := ⟨'X', 0, 0⟩, player2 := ⟨'O', 0, 0⟩,
    board := List.replicate 24 '.',
    current := .P1, current_phase := .MOVING, selected_piece := none,
    game_history := [] }

/-- A fresh-board state already in the `GAME_OVER` phase. -/
def stOver : GameState :=
  { player1 := ⟨'X', 9, 0⟩, player2 := ⟨'O', 9, 0⟩,
    board := List.replicate 24 '.',
    current := .P1, current_phase := .GAME_OVER, selected_piece := none,
    game_history := [] }

/-- A removal-phase state: `X` to remove; `O` holds a mill on `[0, 1, 2]`
plus an unprotected piece at 4. -/
def stRemoval : GameState :=
  { player1 := ⟨'X', 0, 1⟩, player2 := ⟨'O', 0, 4⟩,
    board := ['O', 'O', 'O', '.', 'O', '.', '.', '.', '.', '.', 'X', '.',
              '.', '.', '.', '.', '.', '.', '.', '.', '.', '.', '.', '.'],
    current := .P1, current_phase := .REMOVING_PIECE, selected_piece := none,
    game_history := [] }

/-! ### Basic facts about Python-style indexing -/

theorem pyIdx_of_nonneg {n : Nat} {i : Int} (h0 : 0 ≤ i) (h1 : i < (n : Int)) :
    pyIdx n i = some i.toNat := by
  simp [pyIdx, h0, h1]

theorem pyIdx_of_neg {n : Nat} {i : Int} (h0 : -(n : Int) ≤ i) (h1 : i < 0) :
    pyIdx n i = some (i + (n : Int)).toNat := by
  have hne : ¬(0 ≤ i ∧ i < (n : Int)) := by omega
  simp [pyIdx, hne, h0, h1]

theorem pyIdx_none {n : Nat} {i : Int} (h : (n : Int) ≤ i ∨ i < -(n : Int)) :
    pyIdx n i = none := by
  have h1 : ¬(0 ≤ i ∧ i < (n : Int)) := by omega
  have h2 : ¬(-(n : Int) ≤ i ∧ i < 0) := by omega
  simp [pyIdx, h1, h2]

theorem pyIdx_lt {n : Nat} {i : Int} {j : Nat} (h : pyIdx n i = some j) :
    j < n := by
  unfold pyIdx at h
  split at h
  · next hc => cases h; omega
  · split at h
    · next hc => cases h; omega
    · cases h

theorem pyIdx_ofNat {n : Nat} {j : Nat} (h : j < n) :
    pyIdx n ((j : Int)) = some j := by
  have := pyIdx_of_nonneg (n := n) (i := (j : Int)) (by omega) (by exact_mod_cast h)
  simpa using this

theorem get?_eq_cellAt {b : Board} {j : Nat} (h : j < b.length) :
    b.get? j = some (cellAt b j) := by
  rw [cellAt]
  cases hg : b.get? j with
  | none => exact absurd (List.get?_eq_none.mp hg) (by omega)
  | some c => rfl

theorem pyGet_eq {b : Board} {i : Int} {j : Nat} (h : pyIdx b.length i = some j) :
    pyGet b i = some (cellAt b j) := by
  rw [pyGet, h, Option.some_bind, get?_eq_cellAt (pyIdx_lt h)]

theorem pyGet_none {b : Board} {i : Int} (h : pyIdx b.length i = none) :
    pyGet b i = none := by
  rw [pyGet, h, Option.none_bind]

theorem pySet_eq {b : Board} {i : Int} {j : Nat} {c : Char}
    (h : pyIdx b.length i = some j) :
    pySet b i c = some (b.set j c) := by
  simp [pySet, h]

theorem cellAt_set_self {b : Board} {j : Nat} (h : j < b.length) (c : Char) :
    cellAt (b.set j c) j = c := by
  rw [cellAt, List.get?_set_eq_of_lt c h, Option.getD_some]

theorem cellAt_set_ne {b : Board} {j k : Nat} (h : j ≠ k) (c : Char) :
    cellAt (b.set j c) k = cellAt b k := by
  rw [cellAt, List.get?_set_ne c b h, cellAt]

theorem cellAt_mem {b : Board} {j : Nat} (h : j < b.length) :
    cellAt b j ∈ b :=
  List.get?_mem (get?_eq_cellAt h)

/-! ### Counting lemmas -/

theorem count_set_add (b : Board) (j : Nat) (x c : Char) (h : j < b.length) :
    countSym (b.set j x) c + (if cellAt b j = c then 1 else 0)
      = countSym b c + (if x = c then 1 else 0) := by
  induction b generalizing j with
  | nil => simp at h
  | cons a t ih =>
    cases j with
    | zero =>
      simp only [List.set_cons_zero, countSym, List.count_cons, cellAt,
        List.get?_cons_zero, Option.getD_some]
      rcases Decidable.em (a = c) with hac | hac <;>
        rcases Decidable.em (x = c) with hxc | hxc <;>
          simp [hac, hxc] <;> omega
    | succ j =>
      have hj : j < t.length := by simpa using h
      have := ih (j := j) hj
      simp only [List.set_cons_succ, countSym, List.count_cons, cellAt,
        List.get?_cons_succ] at *
      rcases Decidable.em (a = c) with hac | hac <;> simp [hac] at * <;> omega

theorem count_pos_of_cellAt {b : Board} {j : Nat} {c : Char}
    (h : j < b.length) (hc : cellAt b j = c) : 0 < countSym b c := by
  have : c ∈ b := hc ▸ cellAt_mem h
  exact List.count_pos_iff_mem.mpr this

theorem occupied_eq_counts {b : Board} {s1 s2 : Char}
    (hs1 : s1 ≠ '.') (hs2 : s2 ≠ '.') (h12 : s1 ≠ s2)
    (hall : ∀ c ∈ b, c = '.' ∨ c = s1 ∨ c = s2) :
    occupiedCount b = countSym b s1 + countSym b s2 := by
  induction b with
  | nil => rfl
  | cons a t ih =>
    have ht := ih fun c hc => hall c (List.mem_cons_of_mem a hc)
    have ha := hall a (List.mem_cons_self a t)
    simp only [occupiedCount, countSym, List.filter_cons, List.count_cons,
      beq_iff_eq] at *
    rcases ha with ha | ha | ha <;> subst ha <;>
      simp [hs1, hs2, h12, Ne.symm hs1, Ne.symm hs2, Ne.symm h12, ht] <;> omega

/-! ### Membership in the position-listing helpers -/

theorem mem_get_players_positions {b : Board} {s : Char} {q : Int} :
    q ∈ get_players_positions b s ↔
      ∃ j : Nat, j < b.length ∧ q = (j : Int) ∧ cellAt b j = s := by
  simp only [get_players_positions, List.mem_map, List.mem_filter,
    List.mem_range, beq_iff_eq, Int.ofNat_eq_coe]
  constructor
  · rintro ⟨j, ⟨hj, hc⟩, rfl⟩
    exact ⟨j, hj, rfl, hc⟩
  · rintro ⟨j, hj, rfl, hc⟩
    exact ⟨j, ⟨hj, hc⟩, rfl⟩

theorem mem_get_empty_positions {b : Board} {q : Int} :
    q ∈ get_empty_positions b ↔
      ∃ j : Nat, j < b.length ∧ q = (j : Int) ∧ cellAt b j = '.' := by
  simp only [get_empty_positions, List.mem_map, List.mem_filter,
    List.mem_range, beq_iff_eq, Int.ofNat_eq_coe]
  constructor
  · rintro ⟨j, ⟨hj, hc⟩, rfl⟩
    exact ⟨j, hj, rfl, hc⟩
  · rintro ⟨j, hj, rfl, hc⟩
    exact ⟨j, ⟨hj, hc⟩, rfl⟩

/-! ### Characterizations of the board-level operations -/

theorem add_player_piece_eq {b : Board} {p : Int} {j : Nat} (s : Char)
    (h : pyIdx b.length p = some j) :
    add_player_piece b p s =
      if cellAt b j = '.' then some (true, b.set j s) else some (false, b) := by
  rw [add_player_piece, is_position_empty, pyGet_eq h]
  by_cases hc : cellAt b j = '.' <;>
    simp [hc, pySet_eq (c := s) h]

theorem remove_player_piece_eq {b : Board} {p : Int} {j : Nat}
    (h : pyIdx b.length p = some j) :
    remove_player_piece b p =
      if cellAt b j = '.' then some (false, b) else some (true, b.set j '.') := by
  rw [remove_player_piece, is_position_empty, pyGet_eq h]
  by_cases hc : cellAt b j = '.' <;>
    simp [hc, pySet_eq (c := '.') h]

theorem adjacent_irrefl :
    ∀ j ∈ List.range 24, ((j : Int)) ∉ adjacent_arrays.getD j [] := by decide

theorem mills_bounds :
    ∀ mill ∈ mills_arrays, ∀ q ∈ mill, 0 ≤ q ∧ q < 24 := by decide

/-- C6: for in-range positions, `move_player_piece` never raises; it succeeds
iff the source cell holds the symbol, the target is empty and the target is
adjacent to the source; on success exactly the two cells change (source
becomes empty, target becomes the symbol) and on failure the board is
returned unchanged. -/
theorem move_player_piece_spec (b : Board) (fp tp : Int) (s : Char)
    (hlen : b.length = 24) (hfp0 : 0 ≤ fp) (hfp : fp < 24)
    (htp0 : 0 ≤ tp) (htp : tp < 24) :
    ∃ ok b2, move_player_piece b fp tp s = some (ok, b2) ∧
      (ok = true ↔ cellAt b fp.toNat = s ∧ cellAt b tp.toNat = '.' ∧
        tp ∈ adjacent_arrays.getD fp.toNat []) ∧
      (ok = true → b2 = (b.set fp.toNat '.').set tp.toNat s ∧
        cellAt b2 fp.toNat = '.' ∧ cellAt b2 tp.toNat = s ∧
        ∀ k : Nat, k ≠ fp.toNat → k ≠ tp.toNat → cellAt b2 k = cellAt b k) ∧
      (ok = false → b2 = b) := by
  have hidxf : pyIdx b.length fp = some fp.toNat := by
    rw [hlen]; exact pyIdx_of_nonneg hfp0 (by exact_mod_cast hfp)
  have hidxt : pyIdx b.length tp = some tp.toNat := by
    rw [hlen]; exact pyIdx_of_nonneg htp0 (by exact_mod_cast htp)
  have hadjf : pyIdx 24 fp = some fp.toNat :=
    pyIdx_of_nonneg hfp0 (by exact_mod_cast hfp)
  rw [move_player_piece, pyGet_eq hidxf, Option.some_bind]
  by_cases hcf : cellAt b fp.toNat = s
  · rw [if_pos hcf, is_position_empty, pyGet_eq hidxt, Option.map_some',
      Option.some_bind]
    by_cases he : cellAt b tp.toNat = '.'
    · rw [if_pos (decide_eq_true he), hadjf, Option.some_bind]
      by_cases hmem : tp ∈ adjacent_arrays.getD fp.toNat []
      · rw [if_pos hmem, pySet_eq (c := '.') hidxf, Option.some_bind]
        have hidxt2 : pyIdx (b.set fp.toNat '.').length tp = some tp.toNat := by
          rw [List.length_set]; exact hidxt
        rw [pySet_eq (c := s) hidxt2, Option.map_some']
        have hne : fp.toNat ≠ tp.toNat := by
          intro hEq
          have hrange : fp.toNat ∈ List.range 24 := List.mem_range.mpr (by omega)
          apply adjacent_irrefl fp.toNat hrange
          have h3 : ((fp.toNat : Int)) = tp := by omega
          rw [h3]
          exact hmem
        refine ⟨true, _, rfl, iff_of_true rfl ⟨hcf, he, hmem⟩, fun _ => ?_,
          fun h => absurd h (by decide)⟩
        refine ⟨rfl, ?_, ?_, ?_⟩
        · rw [cellAt_set_ne (Ne.symm hne) s,
            cellAt_set_self (by rw [hlen]; omega) '.']
        · exact cellAt_set_self (by rw [List.length_set, hlen]; omega) s
        · intro k hkf hkt
          rw [cellAt_set_ne (fun hEq => hkt hEq.symm) s,
            cellAt_set_ne (fun hEq => hkf hEq.symm) '.']
      · rw [if_neg hmem]
        exact ⟨false, b, rfl, iff_of_false (by decide) fun h => hmem h.2.2,
          fun h => absurd h (by decide), fun _ => rfl⟩
    · rw [if_neg (fun hcontra => he (of_decide_eq_true hcontra))]
      exact ⟨false, b, rfl, iff_of_false (by decide) fun h => he h.2.1,
        fun h => absurd h (by decide), fun _ => rfl⟩
  · rw [if_neg hcf]
    exact ⟨false, b, rfl, iff_of_false (by decide) fun h => hcf h.1,
      fun h => absurd h (by decide), fun _ => rfl⟩

/-- Witness for C6: a concrete legal move of `X` from 0 to 1. -/
theorem move_player_piece_spec_witness :
    move_player_piece boardX0 0 1 'X' =
      some (true, '.' :: 'X' :: List.replicate 22 '.') := by
  obtain ⟨ok, b2, hrun, hiff, hsucc, hfail⟩ :=
    move_player_piece_spec boardX0 0 1 'X' (by decide) (by decide) (by decide)
      (by decide) (by decide)
  have hok : ok = true := hiff.mpr (by refine ⟨?_, ?_, ?_⟩ <;> decide)
  rw [hrun, hok, (hsucc hok).1]
  decide

/-- C8: mill detection over the 16 mill triples is exhaustive and sound:
a fully same-symbol triple makes every one of its three positions report a
mill, an empty cell never reports a mill, and a reported mill exhibits a
triple through the position whose three cells all hold that position's
symbol. -/
theorem mill_detection_spec (b : Board) (hlen : b.length = 24) :
    (∀ mill ∈ mills_arrays, ∀ s : Char, s ≠ '.' →
      (∀ q ∈ mill, cellAt b q.toNat = s) →
      ∀ q ∈ mill, is_position_part_of_mill b q = some true) ∧
    (∀ p : Int, 0 ≤ p → p < 24 → cellAt b p.toNat = '.' →
      is_position_part_of_mill b p = some false) ∧
    (∀ p : Int, 0 ≤ p → p < 24 → is_position_part_of_mill b p = some true →
      ∃ mill ∈ mills_arrays, p ∈ mill ∧
        ∀ q ∈ mill, cellAt b q.toNat = cellAt b p.toNat) := by
  refine ⟨?_, ?_, ?_⟩
  · intro mill hmill s hs hall q hq
    obtain ⟨hq0, hq24⟩ := mills_bounds mill hmill q hq
    have hidx : pyIdx b.length q = some q.toNat := by
      rw [hlen]; exact pyIdx_of_nonneg hq0 (by exact_mod_cast hq24)
    rw [is_position_part_of_mill, who_on_position, pyGet_eq hidx,
      Option.map_some']
    have hcq : cellAt b q.toNat = s := hall q hq
    rw [hcq, if_neg hs]
    refine congrArg some ?_
    rw [List.any_eq_true]
    refine ⟨mill, hmill, ?_⟩
    rw [Bool.and_eq_true]
    exact ⟨decide_eq_true hq,
      List.all_eq_true.mpr fun x hx => by rw [beq_iff_eq]; exact hall x hx⟩
  · intro p hp0 hp hcell
    have hidx : pyIdx b.length p = some p.toNat := by
      rw [hlen]; exact pyIdx_of_nonneg hp0 (by exact_mod_cast hp)
    rw [is_position_part_of_mill, who_on_position, pyGet_eq hidx,
      Option.map_some', hcell, if_pos rfl]
  · intro p hp0 hp htrue
    have hidx : pyIdx b.length p = some p.toNat := by
      rw [hlen]; exact pyIdx_of_nonneg hp0 (by exact_mod_cast hp)
    rw [is_position_part_of_mill, who_on_position, pyGet_eq hidx,
      Option.map_some'] at htrue
    by_cases hc : cellAt b p.toNat = '.'
    · rw [if_pos hc] at htrue
      exact absurd (Option.some.inj htrue) (by decide)
    · rw [if_neg hc] at htrue
      have hany := Option.some.inj htrue
      rw [List.any_eq_true] at hany
      obtain ⟨mill, hmill, hcond⟩ := hany
      rw [Bool.and_eq_true] at hcond
      refine ⟨mill, hmill, of_decide_eq_true hcond.1, fun q hq => ?_⟩
      have := List.all_eq_true.mp hcond.2 q hq
      rw [beq_iff_eq] at this
      exact this

/-- Witness for C8: the `X` mill on `[0, 1, 2]` is reported at position 0,
and the empty position 3 reports no mill. -/
theorem mill_detection_spec_witness :
    is_position_part_of_mill boardMill 0 = some true ∧
      is_position_part_of_mill boardMill 3 = some false := by
  obtain ⟨h1, h2, h3⟩ := mill_detection_spec boardMill (by decide)
  exact ⟨h1 [0, 1, 2] (by decide) 'X' (by decide) (by decide) 0 (by decide),
    h2 3 (by decide) (by decide) (by decide)⟩

/-- C9: `undo_action` on an empty session log returns `false` and leaves the
state untouched; on a non-empty log it returns `true`, pops the last
snapshot, and restores board, current player and phase from it (all other
fields, in particular the piece counters and the selection, are kept). -/
theorem undo_action_spec (st : GameState) :
    (st.game_history = [] → undo_action st = (false, st)) ∧
    (∀ h2 e, st.game_history = h2 ++ [e] →
      undo_action st = (true, { st with
        board := e.board, current := e.player,
        current_phase := e.phase, game_history := h2 })) := by
  constructor
  · intro h
    simp [undo_action, h]
  · intro h2 e h
    simp [undo_action, h, List.getLast?_concat, List.dropLast_concat]

/-- Witness for C9: undoing the one-entry log of `stAfter0` restores the
empty board, player 1 and the placing phase. -/
theorem undo_action_spec_witness :
    undo_action stAfter0 = (true, { stAfter0 with
      board := List.replicate 24 '.', current := .P1,
      current_phase := .PLACING, game_history := [] }) :=
  (undo_action_spec stAfter0).2 [] ⟨List.replicate 24 '.', .P1, .PLACING, 0⟩ rfl

/-! ### Characterization of the win check, phase update and turn epilogue -/

theorem mem_gpp_range {b : Board} {s : Char} {q : Int}
    (h : q ∈ get_players_positions b s) :
    0 ≤ q ∧ q < (b.length : Int) ∧ cellAt b q.toNat = s := by
  obtain ⟨j, hj, rfl, hc⟩ := mem_get_players_positions.mp h
  refine ⟨by omega, by exact_mod_cast hj, ?_⟩
  rw [Int.toNat_natCast]
  exact hc

theorem get_allowed_moves_some (st : GameState) {p : Int}
    (hp0 : 0 ≤ p) (hp : p < 24) :
    ∃ l, get_allowed_moves st p = some l := by
  rw [get_allowed_moves]
  split
  · exact ⟨_, rfl⟩
  · split
    · exact ⟨_, rfl⟩
    · split
      · rw [get_empty_adjacent_positions,
          pyIdx_of_nonneg hp0 (by exact_mod_cast hp)]
        exact ⟨_, rfl⟩
      · exact ⟨_, rfl⟩

theorem any_opponent_move_some (st : GameState) (ps : List Int) :
    (∀ q ∈ ps, 0 ≤ q ∧ q < 24) → ∃ r, any_opponent_move st ps = some r := by
  induction ps with
  | nil => exact fun _ => ⟨false, rfl⟩
  | cons pos rest ih =>
    intro h
    obtain ⟨l, hl⟩ :=
      get_allowed_moves_some st (h pos (by simp)).1 (h pos (by simp)).2
    rw [any_opponent_move, hl, Option.some_bind]
    by_cases hne : l ≠ []
    · rw [if_pos hne]
      exact ⟨_, rfl⟩
    · rw [if_neg hne]
      exact ih fun q hq => h q (List.mem_cons_of_mem pos hq)

/-- The loop-and-after part of the win check always returns `some false`
on a 24-cell board: the guard `pieces_in_hand >= 0` of the final branch is
a tautology on natural counters, so the `return True` after it is dead. -/
theorem check_win_rest_eq (st : GameState) (hlen : st.board.length = 24) :
    check_win_rest st = some false := by
  rw [check_win_rest]
  by_cases hopp :
      get_players_positions st.board (opponent_player st).player_symbol = []
  · rw [if_pos hopp]
  · rw [if_neg hopp]
    obtain ⟨r, hr⟩ := any_opponent_move_some st
      (get_players_positions st.board (opponent_player st).player_symbol)
      (fun q hq => by
        obtain ⟨h1, h2, _⟩ := mem_gpp_range hq
        rw [hlen] at h2
        exact ⟨h1, by exact_mod_cast h2⟩)
    rw [hr, Option.some_bind]
    by_cases hrt : r = true
    · rw [if_pos hrt]
    · rw [if_neg hrt, if_pos (Or.inl (Nat.zero_le _))]

/-- On a 24-cell board the source's win check reduces to the material
condition alone (the blockade branch is unreachable). -/
theorem check_win_condition_eq (st : GameState) (hlen : st.board.length = 24) :
    check_win_condition st =
      some (decide ((current_player st).pieces_in_hand = 0 ∧
        (opponent_player st).pieces_in_hand = 0 ∧
        (opponent_player st).pieces_on_board < 3)) := by
  rw [check_win_condition]
  by_cases h1 : (current_player st).pieces_in_hand = 0 ∧
      (opponent_player st).pieces_in_hand = 0
  · rw [if_pos h1]
    by_cases h2 : (opponent_player st).pieces_on_board < 3
    · rw [if_pos h2, decide_eq_true ⟨h1.1, h1.2, h2⟩]
    · rw [if_neg h2, check_win_rest_eq st hlen,
        decide_eq_false fun hc => h2 hc.2.2]
  · rw [if_neg h1, check_win_rest_eq st hlen,
      decide_eq_false fun hc => h1 ⟨hc.1, hc.2.1⟩]

theorem update_game_phase_eq {st : GameState} {w : Bool}
    (hw : check_win_condition st = some w) :
    update_game_phase st =
      if w then some { st with current_phase := .GAME_OVER }
      else if (current_player st).pieces_in_hand > 0 then
        some { st with current_phase := .PLACING }
      else if (current_player st).pieces_on_board = 3 then
        some { st with current_phase := .FLYING }
      else some { st with current_phase := .MOVING } := by
  rw [update_game_phase, hw, Option.map_some']
  cases w <;> split_ifs <;> rfl

theorem is_position_part_of_mill_some {b : Board} {p : Int} {j : Nat}
    (hlen : b.length = 24) (hp : pyIdx 24 p = some j) :
    ∃ m, is_position_part_of_mill b p = some m := by
  have hidx : pyIdx b.length p = some j := by rw [hlen]; exact hp
  rw [is_position_part_of_mill, who_on_position, pyGet_eq hidx,
    Option.map_some']
  exact ⟨_, rfl⟩

theorem finalize_turn_eq {st : GameState} {p : Int} {w m : Bool}
    (hw : check_win_condition st = some w)
    (hm : is_position_part_of_mill st.board p = some m) :
    finalize_turn st p =
      if w then some { st with current_phase := .GAME_OVER }
      else if m then some { st with current_phase := .REMOVING_PIECE }
      else update_game_phase (switch_player st) := by
  rw [finalize_turn, hw, Option.some_bind]
  cases w <;> cases m <;> simp [hm]

/-- `finalize_turn` on a 24-cell board with a resolvable position always
succeeds and only touches `current` and `current_phase`. -/
theorem finalize_turn_some {st : GameState} {p : Int} {j : Nat}
    (hlen : st.board.length = 24) (hp : pyIdx 24 p = some j) :
    ∃ st2, finalize_turn st p = some st2 ∧ st2.player1 = st.player1 ∧
      st2.player2 = st.player2 ∧ st2.board = st.board ∧
      st2.selected_piece = st.selected_piece ∧
      st2.game_history = st.game_history := by
  obtain ⟨m, hm⟩ := is_position_part_of_mill_some hlen hp
  rw [finalize_turn_eq (check_win_condition_eq st hlen) hm]
  split
  · exact ⟨_, rfl, rfl, rfl, rfl, rfl, rfl⟩
  · split
    · exact ⟨_, rfl, rfl, rfl, rfl, rfl, rfl⟩
    · rw [update_game_phase_eq
        (check_win_condition_eq (switch_player st) hlen)]
      split
      · exact ⟨_, rfl, rfl, rfl, rfl, rfl, rfl⟩
      · split
        · exact ⟨_, rfl, rfl, rfl, rfl, rfl, rfl⟩
        · split
          · exact ⟨_, rfl, rfl, rfl, rfl, rfl, rfl⟩
          · exact ⟨_, rfl, rfl, rfl, rfl, rfl, rfl⟩

theorem setPl_current_self (st : GameState) (b : Board) :
    setPl { st with board := b } st.current (current_player st) =
      { st with board := b } := by
  rw [current_player]
  cases hc : st.current <;> simp [setPl, getPl, hc]

/-- C10: calling `handle_placing` on an empty target cell while the current
player's hand is empty still writes the piece and reports success, while
leaving every piece counter of both players unchanged (the `False` returned
by `Player.place_piece` is ignored). -/
theorem handle_placing_hand0_spec (st : GameState) (p : Int) (j : Nat)
    (hlen : st.board.length = 24)
    (hhand : (current_player st).pieces_in_hand = 0)
    (hp : pyIdx 24 p = some j) (hempty : cellAt st.board j = '.') :
    ∃ st2, handle_placing st p = some (true, st2) ∧
      cellAt st2.board j = (current_player st).player_symbol ∧
      st2.player1.pieces_in_hand = st.player1.pieces_in_hand ∧
      st2.player1.pieces_on_board = st.player1.pieces_on_board ∧
      st2.player2.pieces_in_hand = st.player2.pieces_in_hand ∧
      st2.player2.pieces_on_board = st.player2.pieces_on_board := by
  have hidx : pyIdx st.board.length p = some j := by rw [hlen]; exact hp
  rw [handle_placing, add_player_piece_eq _ hidx, if_pos hempty,
    Option.some_bind]
  have hpl : (place_piece (current_player st)).2 = current_player st := by
    rw [place_piece, if_neg (by omega)]
  dsimp only
  rw [hpl, setPl_current_self]
  have hlen1 :
      (GameState.board { st with
        board := st.board.set j (current_player st).player_symbol }).length
        = 24 := by
    dsimp only
    rw [List.length_set, hlen]
  obtain ⟨st2, hfin, hp1, hp2, hb, _, _⟩ := finalize_turn_some hlen1 hp
  rw [hfin, Option.map_some']
  refine ⟨st2, rfl, ?_, by rw [hp1], by rw [hp1], by rw [hp2], by rw [hp2]⟩
  rw [hb]
  exact cellAt_set_self (by rw [hlen]; exact pyIdx_lt hp)
    (current_player st).player_symbol

/-- Witness for C10: on an empty board with `X` having an empty hand, the
placement at 5 succeeds, the cell is written, and all counters stay 0. -/
theorem handle_placing_hand0_spec_witness :
    ∃ st2, handle_placing stHand0 5 = some (true, st2) ∧
      cellAt st2.board 5 = (current_player stHand0).player_symbol ∧
      st2.player1.pieces_in_hand = stHand0.player1.pieces_in_hand ∧
      st2.player1.pieces_on_board = stHand0.player1.pieces_on_board ∧
      st2.player2.pieces_in_hand = stHand0.player2.pieces_in_hand ∧
      st2.player2.pieces_on_board = stHand0.player2.pieces_on_board :=
  handle_placing_hand0_spec stHand0 5 5 (by decide) (by decide) (by decide)
    (by decide)

/-! ### Legal removals (C7) -/

theorem is_mill_opp {st : GameState} {q : Int}
    (hsym : (opponent_player st).player_symbol ≠ '.')
    (hq : q ∈ get_players_positions st.board (opponent_player st).player_symbol) :
    is_position_part_of_mill st.board q = some (decide (ProtectedSpec st q)) := by
  obtain ⟨h0, h1, hc⟩ := mem_gpp_range hq
  have hidx : pyIdx st.board.length q = some q.toNat := pyIdx_of_nonneg h0 h1
  rw [is_position_part_of_mill, who_on_position, pyGet_eq hidx,
    Option.map_some', hc, if_neg hsym]
  refine congrArg some ?_
  by_cases hP : ProtectedSpec st q
  · rw [decide_eq_true hP, List.any_eq_true]
    obtain ⟨mill, hmill, hqm, hallm⟩ := hP
    refine ⟨mill, hmill, ?_⟩
    rw [Bool.and_eq_true]
    exact ⟨decide_eq_true hqm,
      List.all_eq_true.mpr fun r hr => by rw [beq_iff_eq]; exact hallm r hr⟩
  · rw [decide_eq_false hP]
    cases hA : mills_arrays.any fun mill =>
        decide (q ∈ mill) && mill.all fun pos =>
          cellAt st.board pos.toNat == (opponent_player st).player_symbol
    · rfl
    · exfalso
      rw [List.any_eq_true] at hA
      obtain ⟨mill, hmill, hcond⟩ := hA
      rw [Bool.and_eq_true] at hcond
      refine hP ⟨mill, hmill, of_decide_eq_true hcond.1, fun r hr => ?_⟩
      have := List.all_eq_true.mp hcond.2 r hr
      rwa [beq_iff_eq] at this

theorem removal_filter_eq (st : GameState)
    (hsym : (opponent_player st).player_symbol ≠ '.') (ps : List Int) :
    (∀ q ∈ ps,
        q ∈ get_players_positions st.board (opponent_player st).player_symbol) →
      removal_filter st ps =
        some (ps.filter fun q => decide (¬ ProtectedSpec st q)) := by
  induction ps with
  | nil => exact fun _ => rfl
  | cons pos rest ih =>
    intro h
    rw [removal_filter, is_mill_opp hsym (h pos (by simp)), Option.some_bind,
      ih fun q hq => h q (List.mem_cons_of_mem pos hq), Option.map_some',
      List.filter_cons]
    by_cases hP : ProtectedSpec st pos <;> simp [hP]

/-- C7: `get_allowed_removals` returns exactly the opponent's positions not
protected by one of the opponent's completed mills; when every opponent
position is mill-protected it returns all opponent positions. -/
theorem get_allowed_removals_spec (st : GameState)
    (hsym : (opponent_player st).player_symbol ≠ '.') :
    ∃ l, get_allowed_removals st = some l ∧
      ((∃ q ∈ get_players_positions st.board (opponent_player st).player_symbol,
          ¬ ProtectedSpec st q) →
        ∀ p : Int, p ∈ l ↔
          (p ∈ get_players_positions st.board (opponent_player st).player_symbol ∧
           ¬ ProtectedSpec st p)) ∧
      ((∀ q ∈ get_players_positions st.board (opponent_player st).player_symbol,
          ProtectedSpec st q) →
        l = get_players_positions st.board (opponent_player st).player_symbol) := by
  rw [get_allowed_removals]
  rw [removal_filter_eq st hsym _ fun q hq => hq, Option.map_some']
  refine ⟨_, rfl, ?_, ?_⟩
  · rintro ⟨q, hq, hnp⟩ p
    have hmem : q ∈ (get_players_positions st.board
        (opponent_player st).player_symbol).filter
          fun r => decide (¬ ProtectedSpec st r) :=
      List.mem_filter.mpr ⟨hq, decide_eq_true hnp⟩
    rw [if_pos (List.ne_nil_of_mem hmem)]
    simp [List.mem_filter]
  · intro hall
    have hempty : (get_players_positions st.board
        (opponent_player st).player_symbol).filter
          (fun r => decide (¬ ProtectedSpec st r)) = [] := by
      rw [List.filter_eq_nil]
      intro q hq
      simp [hall q hq]
    rw [if_neg fun hcon => hcon hempty]

/-- Witness for C7: in `stRemoval`, `O` at 4 is unprotected while the mill
`[0, 1, 2]` protects the other three pieces. -/
theorem get_allowed_removals_spec_witness :
    ∃ l, get_allowed_removals stRemoval = some l ∧
      ((∃ q ∈ get_players_positions stRemoval.board
            (opponent_player stRemoval).player_symbol,
          ¬ ProtectedSpec stRemoval q) →
        ∀ p : Int, p ∈ l ↔
          (p ∈ get_players_positions stRemoval.board
              (opponent_player stRemoval).player_symbol ∧
           ¬ ProtectedSpec stRemoval p)) ∧
      ((∀ q ∈ get_players_positions stRemoval.board
            (opponent_player stRemoval).player_symbol,
          ProtectedSpec stRemoval q) →
        l = get_players_positions stRemoval.board
          (opponent_player stRemoval).player_symbol) :=
  get_allowed_removals_spec stRemoval (by decide)

/-! ### Phase dispatch of `handle_action` -/

theorem handle_action_eq_placing {st : GameState} (p : Int)
    (hph : st.current_phase = .PLACING) :
    handle_action st p = handle_placing (record_game_action st p) p := by
  obtain ⟨p1, p2, b, cur, ph, sel, hist⟩ := st
  cases ph
  · rfl
  all_goals simp at hph

theorem handle_action_eq_moving {st : GameState} (p : Int)
    (hph : st.current_phase = .MOVING) :
    handle_action st p = handle_moving (record_game_action st p) p := by
  obtain ⟨p1, p2, b, cur, ph, sel, hist⟩ := st
  cases ph
  case MOVING => rfl
  all_goals simp at hph

theorem handle_action_eq_removing {st : GameState} (p : Int)
    (hph : st.current_phase = .REMOVING_PIECE) :
    handle_action st p = handle_removing_piece (record_game_action st p) p := by
  obtain ⟨p1, p2, b, cur, ph, sel, hist⟩ := st
  cases ph
  case REMOVING_PIECE => rfl
  all_goals simp at hph

theorem handle_action_eq_flying {st : GameState} (p : Int)
    (hph : st.current_phase = .FLYING) :
    handle_action st p = handle_flying (record_game_action st p) p := by
  obtain ⟨p1, p2, b, cur, ph, sel, hist⟩ := st
  cases ph
  case FLYING => rfl
  all_goals simp at hph

theorem handle_action_eq_gameover {st : GameState} (p : Int)
    (hph : st.current_phase = .GAME_OVER) :
    handle_action st p = some (false, st) := by
  obtain ⟨p1, p2, b, cur, ph, sel, hist⟩ := st
  cases ph
  case GAME_OVER => rfl
  all_goals simp at hph

/-! ### Out-of-range positions (C2) -/

/-- Counterexample for C2: the engine raises `IndexError` (modelled as
`none`) on position 24 in the placing phase of a fresh game rather than
returning `False`. -/
theorem out_of_range_counterexample : handle_action stInit 24 = none := by
  decide

/-- C2 amended: a position at or beyond 24 (or below -24) makes the
board-indexing engine operations raise `IndexError` (here shown for
`handle_action` in the placing phase), and a position in `[-24, -1]` is
interpreted as `position + 24` by Python list indexing instead of being
rejected. -/
theorem out_of_range_spec :
    (∀ (st : GameState) (p : Int), st.current_phase = .PLACING →
      st.board.length = 24 → (24 ≤ p ∨ p < -24) → handle_action st p = none) ∧
    (∀ (b : Board) (p : Int) (s : Char), b.length = 24 → -24 ≤ p → p < 0 →
      add_player_piece b p s = add_player_piece b (p + 24) s) := by
  constructor
  · intro st p hphase hlen hout
    rw [handle_action_eq_placing p hphase]
    have hpy : pyGet (record_game_action st p).board p = none := by
      apply pyGet_none
      have hl : (record_game_action st p).board.length = 24 := hlen
      rw [hl]
      exact pyIdx_none (by exact_mod_cast hout)
    rw [handle_placing, add_player_piece, is_position_empty, hpy]
    rfl
  · intro b p s hlen h0 h1
    have e : pyIdx b.length p = pyIdx b.length (p + 24) := by
      rw [hlen, pyIdx_of_neg (by exact_mod_cast h0) h1,
        pyIdx_of_nonneg (by omega) (by omega)]
      norm_num
    simp only [add_player_piece, is_position_empty, pyGet, pySet, e]

/-- Witness for C2: position 25 raises on a fresh game, and `-1` aliases
position 23 at the board layer. -/
theorem out_of_range_spec_witness :
    handle_action stInit 25 = none ∧
      add_player_piece make_new_board (-1) 'O' =
        add_player_piece make_new_board 23 'O' := by
  constructor
  · exact out_of_range_spec.1 stInit 25 rfl (by decide) (by decide)
  · have h := out_of_range_spec.2 make_new_board (-1) 'O' (by decide)
      (by decide) (by decide)
    simpa using h

/-! ### No state change on rejection except the log (C3) -/

theorem add_player_piece_false {b : Board} {p : Int} {s : Char} {ok : Bool}
    {b2 : Board} (h : add_player_piece b p s = some (ok, b2))
    (hok : ok = false) : b2 = b := by
  rw [add_player_piece] at h
  cases hg : is_position_empty b p with
  | none => rw [hg] at h; cases h
  | some e =>
    rw [hg, Option.some_bind] at h
    by_cases he : e = true
    · rw [if_pos he] at h
      cases hs : pySet b p s with
      | none => rw [hs] at h; cases h
      | some b3 =>
        rw [hs, Option.map_some'] at h
        obtain hh := Option.some.inj h
        rw [hok] at hh
        have hcontra : (true : Bool) = false := congrArg Prod.fst hh
        exact Bool.noConfusion hcontra
    · rw [if_neg he] at h
      obtain hh := Option.some.inj h
      exact (congrArg Prod.snd hh).symm

theorem remove_player_piece_false {b : Board} {p : Int} {ok : Bool}
    {b2 : Board} (h : remove_player_piece b p = some (ok, b2))
    (hok : ok = false) : b2 = b := by
  rw [remove_player_piece] at h
  cases hg : is_position_empty b p with
  | none => rw [hg] at h; cases h
  | some e =>
    rw [hg, Option.some_bind] at h
    by_cases he : e = true
    · rw [if_pos he] at h
      obtain hh := Option.some.inj h
      exact (congrArg Prod.snd hh).symm
    · rw [if_neg he] at h
      cases hs : pySet b p '.' with
      | none => rw [hs] at h; cases h
      | some b3 =>
        rw [hs, Option.map_some'] at h
        obtain hh := Option.some.inj h
        rw [hok] at hh
        have hcontra : (true : Bool) = false := congrArg Prod.fst hh
        exact Bool.noConfusion hcontra

theorem move_player_piece_false {b : Board} {fp tp : Int} {s : Char}
    {ok : Bool} {b2 : Board}
    (h : move_player_piece b fp tp s = some (ok, b2)) (hok : ok = false) :
    b2 = b := by
  rw [move_player_piece] at h
  cases hg : pyGet b fp with
  | none => rw [hg] at h; cases h
  | some cf =>
    rw [hg, Option.some_bind] at h
    by_cases hcf : cf = s
    · rw [if_pos hcf] at h
      cases hie : is_position_empty b tp with
      | none => rw [hie] at h; cases h
      | some e =>
        rw [hie, Option.some_bind] at h
        by_cases he : e = true
        · rw [if_pos he] at h
          cases hji : pyIdx 24 fp with
          | none => rw [hji] at h; cases h
          | some jf =>
            rw [hji, Option.some_bind] at h
            by_cases hmem : tp ∈ adjacent_arrays.getD jf []
            · rw [if_pos hmem] at h
              cases hs1 : pySet b fp '.' with
              | none => rw [hs1] at h; cases h
              | some bm =>
                rw [hs1, Option.some_bind] at h
                cases hs2 : pySet bm tp s with
                | none => rw [hs2] at h; cases h
                | some b3 =>
                  rw [hs2, Option.map_some'] at h
                  obtain hh := Option.some.inj h
                  rw [hok] at hh
                  have hcontra : (true : Bool) = false := congrArg Prod.fst hh
                  exact Bool.noConfusion hcontra
            · rw [if_neg hmem] at h
              exact (congrArg Prod.snd (Option.some.inj h)).symm
        · rw [if_neg he] at h
          exact (congrArg Prod.snd (Option.some.inj h)).symm
    · rw [if_neg hcf] at h
      exact (congrArg Prod.snd (Option.some.inj h)).symm

theorem fly_player_piece_false {b : Board} {fp tp : Int} {s : Char}
    {ok : Bool} {b2 : Board}
    (h : fly_player_piece b fp tp s = some (ok, b2)) (hok : ok = false) :
    b2 = b := by
  rw [fly_player_piece] at h
  cases hg : pyGet b fp with
  | none => rw [hg] at h; cases h
  | some cf =>
    rw [hg, Option.some_bind] at h
    by_cases hcf : cf = s
    · rw [if_pos hcf] at h
      cases hie : is_position_empty b tp with
      | none => rw [hie] at h; cases h
      | some e =>
        rw [hie, Option.some_bind] at h
        by_cases he : e = true
        · rw [if_pos he] at h
          cases hs1 : pySet b fp '.' with
          | none => rw [hs1] at h; cases h
          | some bm =>
            rw [hs1, Option.some_bind] at h
            cases hs2 : pySet bm tp s with
            | none => rw [hs2] at h; cases h
            | some b3 =>
              rw [hs2, Option.map_some'] at h
              obtain hh := Option.some.inj h
              rw [hok] at hh
              have hcontra : (true : Bool) = false := congrArg Prod.fst hh
              exact Bool.noConfusion hcontra
        · rw [if_neg he] at h
          exact (congrArg Prod.snd (Option.some.inj h)).symm
    · rw [if_neg hcf] at h
      exact (congrArg Prod.snd (Option.some.inj h)).symm

theorem handle_placing_false {st : GameState} {p : Int} {st2 : GameState}
    (h : handle_placing st p = some (false, st2)) : st2 = st := by
  rw [handle_placing] at h
  simp only [] at h
  cases ha : add_player_piece st.board p (current_player st).player_symbol with
  | none => rw [ha] at h; cases h
  | some r =>
    rw [ha, Option.some_bind] at h
    by_cases hr : r.1 = true
    · rw [if_pos hr] at h
      cases hf : finalize_turn
          (setPl { st with board := r.2 } st.current
            (place_piece (current_player st)).2) p with
      | none => rw [hf] at h; cases h
      | some st3 =>
        rw [hf, Option.map_some'] at h
        have hcontra : (true : Bool) = false :=
          congrArg Prod.fst (Option.some.inj h)
        exact Bool.noConfusion hcontra
    · rw [if_neg hr] at h
      have hb : r.2 = st.board := add_player_piece_false ha (by
        revert hr; cases r.1 <;> simp)
      have h2 : st2 = { st with board := r.2 } :=
        (congrArg Prod.snd (Option.some.inj h)).symm
      rw [h2, hb]

theorem handle_moving_false {st : GameState} {p : Int} {st2 : GameState}
    (h : handle_moving st p = some (false, st2)) : st2 = st := by
  rw [handle_moving] at h
  cases hsel : st.selected_piece with
  | none =>
    rw [hsel] at h
    simp only [] at h
    cases hg : who_on_position st.board p with
    | none => rw [hg] at h; cases h
    | some c =>
      rw [hg, Option.some_bind] at h
      by_cases hc : c = (current_player st).player_symbol
      · rw [if_pos hc] at h
        cases he : get_empty_adjacent_positions st.board p with
        | none => rw [he] at h; cases h
        | some l =>
          rw [he, Option.map_some'] at h
          by_cases hl : l ≠ []
          · rw [if_pos hl] at h
            have hcontra : (true : Bool) = false :=
              congrArg Prod.fst (Option.some.inj h)
            exact Bool.noConfusion hcontra
          · rw [if_neg hl] at h
            exact (congrArg Prod.snd (Option.some.inj h)).symm
      · rw [if_neg hc] at h
        exact (congrArg Prod.snd (Option.some.inj h)).symm
  | some sel =>
    rw [hsel] at h
    simp only [] at h
    by_cases hps : p = sel
    · rw [if_pos hps] at h
      have hcontra : (true : Bool) = false :=
        congrArg Prod.fst (Option.some.inj h)
      exact Bool.noConfusion hcontra
    · rw [if_neg hps] at h
      cases hm : move_player_piece st.board sel p
          (current_player st).player_symbol with
      | none => rw [hm] at h; cases h
      | some r =>
        rw [hm, Option.some_bind] at h
        by_cases hr : r.1 = true
        · rw [if_pos hr] at h
          cases hf : finalize_turn
              { st with board := r.2, selected_piece := some sel } p with
          | none => rw [hf] at h; cases h
          | some st3 =>
            rw [hf, Option.map_some'] at h
            have hcontra : (true : Bool) = false :=
              congrArg Prod.fst (Option.some.inj h)
            exact Bool.noConfusion hcontra
        · rw [if_neg hr] at h
          have hb : r.2 = st.board := move_player_piece_false hm (by
            revert hr; cases r.1 <;> simp)
          have h2 : st2 = { st with board := r.2, selected_piece := some sel } :=
            (congrArg Prod.snd (Option.some.inj h)).symm
          rw [h2, hb, ← hsel]

theorem handle_flying_false {st : GameState} {p : Int} {st2 : GameState}
    (h : handle_flying st p = some (false, st2)) : st2 = st := by
  rw [handle_flying] at h
  cases hsel : st.selected_piece with
  | none =>
    rw [hsel] at h
    simp only [] at h
    cases hg : who_on_position st.board p with
    | none => rw [hg] at h; cases h
    | some c =>
      rw [hg, Option.some_bind] at h
      by_cases hc : c = (current_player st).player_symbol
      · rw [if_pos hc] at h
        have hcontra : (true : Bool) = false :=
          congrArg Prod.fst (Option.some.inj h)
        exact Bool.noConfusion hcontra
      · rw [if_neg hc] at h
        exact (congrArg Prod.snd (Option.some.inj h)).symm
  | some sel =>
    rw [hsel] at h
    simp only [] at h
    by_cases hps : p = sel
    · rw [if_pos hps] at h
      have hcontra : (true : Bool) = false :=
        congrArg Prod.fst (Option.some.inj h)
      exact Bool.noConfusion hcontra
    · rw [if_neg hps] at h
      cases hm : fly_player_piece st.board sel p
          (current_player st).player_symbol with
      | none => rw [hm] at h; cases h
      | some r =>
        rw [hm, Option.some_bind] at h
        by_cases hr : r.1 = true
        · rw [if_pos hr] at h
          cases hf : finalize_turn
              { st with board := r.2, selected_piece := some sel } p with
          | none => rw [hf] at h; cases h
          | some st3 =>
            rw [hf, Option.map_some'] at h
            have hcontra : (true : Bool) = false :=
              congrArg Prod.fst (Option.some.inj h)
            exact Bool.noConfusion hcontra
        · rw [if_neg hr] at h
          have hb : r.2 = st.board := fly_player_piece_false hm (by
            revert hr; cases r.1 <;> simp)
          have h2 : st2 = { st with board := r.2, selected_piece := some sel } :=
            (congrArg Prod.snd (Option.some.inj h)).symm
          rw [h2, hb, ← hsel]

theorem handle_removing_piece_false {st : GameState} {p : Int}
    {st2 : GameState} (h : handle_removing_piece st p = some (false, st2)) :
    st2 = st := by
  rw [handle_removing_piece] at h
  simp only [] at h
  cases hg : get_allowed_removals st with
  | none => rw [hg] at h; cases h
  | some allowed =>
    rw [hg, Option.some_bind] at h
    by_cases hmem : p ∈ allowed
    · rw [if_pos hmem] at h
      cases hrm : remove_player_piece st.board p with
      | none => rw [hrm] at h; cases h
      | some r =>
        rw [hrm, Option.some_bind] at h
        by_cases hr : r.1 = true
        · rw [if_pos hr] at h
          cases hw : check_win_condition
              (setPl { st with board := r.2 } (otherWho st.current)
                (remove_piece (opponent_player st)).2) with
          | none => rw [hw] at h; cases h
          | some w =>
            rw [hw, Option.some_bind] at h
            cases hf : finalize_turn
                (setPl { st with board := r.2 } (otherWho st.current)
                  (remove_piece (opponent_player st)).2) p with
            | none => rw [hf] at h; cases h
            | some st3 =>
              rw [hf, Option.map_some'] at h
              have hcontra : (true : Bool) = false :=
                congrArg Prod.fst (Option.some.inj h)
              exact Bool.noConfusion hcontra
        · rw [if_neg hr] at h
          have hb : r.2 = st.board := remove_player_piece_false hrm (by
            revert hr; cases r.1 <;> simp)
          have h2 : st2 = { st with board := r.2 } :=
            (congrArg Prod.snd (Option.some.inj h)).symm
          rw [h2, hb]
    · rw [if_neg hmem] at h
      exact (congrArg Prod.snd (Option.some.inj h)).symm

/-- Counterexample for C3: the rejected placement on the occupied cell 0
still appends a snapshot to the session log. -/
theorem rejection_changes_log_counterexample :
    handle_action stAfter0 0 = some (false, record_game_action stAfter0 0) ∧
      (record_game_action stAfter0 0).game_history ≠ stAfter0.game_history := by
  exact ⟨by decide, by decide⟩

/-- C3 amended: whenever `handle_action` returns `False`, the board, both
players' counters, the current player, the phase and the selection are
unchanged; the session log, however, gains the pre-action snapshot appended
before validation, except in the `GAME_OVER` phase where it too is
unchanged. -/
theorem handle_action_rejection_spec :
    ∀ (st : GameState) (p : Int) (st2 : GameState),
      handle_action st p = some (false, st2) →
      st2.board = st.board ∧ st2.player1 = st.player1 ∧
      st2.player2 = st.player2 ∧ st2.current = st.current ∧
      st2.current_phase = st.current_phase ∧
      st2.selected_piece = st.selected_piece ∧
      (st2.game_history = st.game_history ++
          [⟨st.board, st.current, st.current_phase, p⟩] ∨
        (st.current_phase = .GAME_OVER ∧
          st2.game_history = st.game_history)) := by
  intro st p st2 h
  obtain ⟨p1, p2, b, cur, ph, sel, hist⟩ := st
  cases ph
  case PLACING =>
    have hst := handle_placing_false h
    rw [hst]
    exact ⟨rfl, rfl, rfl, rfl, rfl, rfl, Or.inl rfl⟩
  case MOVING =>
    have hst := handle_moving_false h
    rw [hst]
    exact ⟨rfl, rfl, rfl, rfl, rfl, rfl, Or.inl rfl⟩
  case FLYING =>
    have hst := handle_flying_false h
    rw [hst]
    exact ⟨rfl, rfl, rfl, rfl, rfl, rfl, Or.inl rfl⟩
  case REMOVING_PIECE =>
    have hst := handle_removing_piece_false h
    rw [hst]
    exact ⟨rfl, rfl, rfl, rfl, rfl, rfl, Or.inl rfl⟩
  case GAME_OVER =>
    have hst : st2 = ⟨p1, p2, b, cur, .GAME_OVER, sel, hist⟩ :=
      (congrArg Prod.snd (Option.some.inj h)).symm
    rw [hst]
    exact ⟨rfl, rfl, rfl, rfl, rfl, rfl, Or.inr ⟨rfl, rfl⟩⟩

/-- Witness for C3 (amended): the rejected placement at the occupied cell 0
leaves everything except the log unchanged. -/
theorem handle_action_rejection_spec_witness :
    (record_game_action stAfter0 0).board = stAfter0.board ∧
      (record_game_action stAfter0 0).player1 = stAfter0.player1 ∧
      (record_game_action stAfter0 0).player2 = stAfter0.player2 ∧
      (record_game_action stAfter0 0).current = stAfter0.current ∧
      (record_game_action stAfter0 0).current_phase = stAfter0.current_phase ∧
      (record_game_action stAfter0 0).selected_piece = stAfter0.selected_piece ∧
      ((record_game_action stAfter0 0).game_history =
          stAfter0.game_history ++
            [⟨stAfter0.board, stAfter0.current, stAfter0.current_phase, 0⟩] ∨
        (stAfter0.current_phase = .GAME_OVER ∧
          (record_game_action stAfter0 0).game_history =
            stAfter0.game_history)) :=
  handle_action_rejection_spec stAfter0 0 (record_game_action stAfter0 0)
    (by decide)

/-! ### The dead blockade-win branch (C1) -/

/-- C1: in `cexBlocked` the opponent has four pieces on the board, none of
which has an empty adjacent cell (and with an empty hand and more than 3
pieces the opponent is under plain moving rules), yet `check_win_condition`
returns `False`: the tautological guard `pieces_in_hand >= 0` makes the
`return True` of the blockade branch unreachable, contradicting the
function's own docstring and its dead win-by-blocking message. -/
theorem blockade_win_never_reported :
    check_win_condition cexBlocked = some false ∧
      get_players_positions cexBlocked.board
        (opponent_player cexBlocked).player_symbol ≠ [] ∧
      (∀ q ∈ get_players_positions cexBlocked.board
          (opponent_player cexBlocked).player_symbol,
        get_empty_adjacent_positions cexBlocked.board q = some []) ∧
      (current_player cexBlocked).pieces_in_hand = 0 ∧
      (opponent_player cexBlocked).pieces_in_hand = 0 ∧
      3 < (opponent_player cexBlocked).pieces_on_board := by
  decide

/-! ### Success characterizations of the board mutations -/

theorem pyGet_some_pyIdx {b : Board} {i : Int} {c : Char}
    (h : pyGet b i = some c) :
    ∃ j, pyIdx b.length i = some j ∧ cellAt b j = c := by
  cases hpi : pyIdx b.length i with
  | none => rw [pyGet_none hpi] at h; cases h
  | some j =>
    rw [pyGet_eq hpi] at h
    exact ⟨j, rfl, Option.some.inj h⟩

theorem is_position_empty_some_pyIdx {b : Board} {p : Int} {e : Bool}
    (h : is_position_empty b p = some e) :
    ∃ j, pyIdx b.length p = some j ∧ decide (cellAt b j = '.') = e := by
  rw [is_position_empty] at h
  cases hg : pyGet b p with
  | none => rw [hg] at h; cases h
  | some c =>
    rw [hg, Option.map_some'] at h
    obtain ⟨j, hj, hc⟩ := pyGet_some_pyIdx hg
    exact ⟨j, hj, by rw [hc]; exact Option.some.inj h⟩

theorem add_player_piece_true {b : Board} {p : Int} {s : Char} {ok : Bool}
    {b2 : Board} (h : add_player_piece b p s = some (ok, b2))
    (hok : ok = true) :
    ∃ j, pyIdx b.length p = some j ∧ cellAt b j = '.' ∧ b2 = b.set j s := by
  rw [add_player_piece] at h
  cases hg : is_position_empty b p with
  | none => rw [hg] at h; cases h
  | some e =>
    rw [hg, Option.some_bind] at h
    obtain ⟨j, hj, he⟩ := is_position_empty_some_pyIdx hg
    by_cases hcell : cellAt b j = '.'
    · have het : e = true := by rw [← he, decide_eq_true hcell]
      rw [if_pos het, pySet_eq (c := s) hj, Option.map_some'] at h
      obtain hh := Option.some.inj h
      exact ⟨j, hj, hcell, (congrArg Prod.snd hh).symm⟩
    · have hef : ¬ e = true := by
        rw [← he]
        simp [hcell]
      rw [if_neg hef] at h
      obtain hh := Option.some.inj h
      rw [hok] at hh
      have hcontra : (false : Bool) = true := congrArg Prod.fst hh
      exact Bool.noConfusion hcontra

theorem remove_player_piece_true {b : Board} {p : Int} {ok : Bool}
    {b2 : Board} (h : remove_player_piece b p = some (ok, b2))
    (hok : ok = true) :
    ∃ j, pyIdx b.length p = some j ∧ cellAt b j ≠ '.' ∧
      b2 = b.set j '.' := by
  rw [remove_player_piece] at h
  cases hg : is_position_empty b p with
  | none => rw [hg] at h; cases h
  | some e =>
    rw [hg, Option.some_bind] at h
    obtain ⟨j, hj, he⟩ := is_position_empty_some_pyIdx hg
    by_cases hcell : cellAt b j = '.'
    · have het : e = true := by rw [← he, decide_eq_true hcell]
      rw [if_pos het] at h
      obtain hh := Option.some.inj h
      rw [hok] at hh
      have hcontra : (false : Bool) = true := congrArg Prod.fst hh
      exact Bool.noConfusion hcontra
    · have hef : ¬ e = true := by
        rw [← he]
        simp [hcell]
      rw [if_neg hef, pySet_eq (c := '.') hj, Option.map_some'] at h
      obtain hh := Option.some.inj h
      exact ⟨j, hj, hcell, (congrArg Prod.snd hh).symm⟩

theorem move_player_piece_true {b : Board} {fp tp : Int} {s : Char}
    {ok : Bool} {b2 : Board}
    (h : move_player_piece b fp tp s = some (ok, b2)) (hok : ok = true) :
    ∃ jf jt, pyIdx b.length fp = some jf ∧ pyIdx b.length tp = some jt ∧
      cellAt b jf = s ∧ cellAt b jt = '.' ∧
      b2 = (b.set jf '.').set jt s := by
  rw [move_player_piece] at h
  cases hg : pyGet b fp with
  | none => rw [hg] at h; cases h
  | some cf =>
    rw [hg, Option.some_bind] at h
    obtain ⟨jf, hjf, hcf⟩ := pyGet_some_pyIdx hg
    by_cases hcfs : cf = s
    · rw [if_pos hcfs] at h
      cases hie : is_position_empty b tp with
      | none => rw [hie] at h; cases h
      | some e =>
        rw [hie, Option.some_bind] at h
        obtain ⟨jt, hjt, he⟩ := is_position_empty_some_pyIdx hie
        by_cases hcell : cellAt b jt = '.'
        · have het : e = true := by rw [← he, decide_eq_true hcell]
          rw [if_pos het] at h
          cases hji : pyIdx 24 fp with
          | none => rw [hji] at h; cases h
          | some jf2 =>
            rw [hji, Option.some_bind] at h
            by_cases hmem : tp ∈ adjacent_arrays.getD jf2 []
            · rw [if_pos hmem, pySet_eq (c := '.') hjf,
                Option.some_bind] at h
              have hjt2 : pyIdx (b.set jf '.').length tp = some jt := by
                rw [List.length_set]; exact hjt
              rw [pySet_eq (c := s) hjt2, Option.map_some'] at h
              obtain hh := Option.some.inj h
              exact ⟨jf, jt, hjf, hjt, hcfs ▸ hcf, hcell,
                (congrArg Prod.snd hh).symm⟩
            · rw [if_neg hmem] at h
              obtain hh := Option.some.inj h
              rw [hok] at hh
              have hcontra : (false : Bool) = true := congrArg Prod.fst hh
              exact Bool.noConfusion hcontra
        · have hef : ¬ e = true := by
            rw [← he]
            simp [hcell]
          rw [if_neg hef] at h
          obtain hh := Option.some.inj h
          rw [hok] at hh
          have hcontra : (false : Bool) = true := congrArg Prod.fst hh
          exact Bool.noConfusion hcontra
    · rw [if_neg hcfs] at h
      obtain hh := Option.some.inj h
      rw [hok] at hh
      have hcontra : (false : Bool) = true := congrArg Prod.fst hh
      exact Bool.noConfusion hcontra

theorem fly_player_piece_true {b : Board} {fp tp : Int} {s : Char}
    {ok : Bool} {b2 : Board}
    (h : fly_player_piece b fp tp s = some (ok, b2)) (hok : ok = true) :
    ∃ jf jt, pyIdx b.length fp = some jf ∧ pyIdx b.length tp = some jt ∧
      cellAt b jf = s ∧ cellAt b jt = '.' ∧
      b2 = (b.set jf '.').set jt s := by
  rw [fly_player_piece] at h
  cases hg : pyGet b fp with
  | none => rw [hg] at h; cases h
  | some cf =>
    rw [hg, Option.some_bind] at h
    obtain ⟨jf, hjf, hcf⟩ := pyGet_some_pyIdx hg
    by_cases hcfs : cf = s
    · rw [if_pos hcfs] at h
      cases hie : is_position_empty b tp with
      | none => rw [hie] at h; cases h
      | some e =>
        rw [hie, Option.some_bind] at h
        obtain ⟨jt, hjt, he⟩ := is_position_empty_some_pyIdx hie
        by_cases hcell : cellAt b jt = '.'
        · have het : e = true := by rw [← he, decide_eq_true hcell]
          rw [if_pos het, pySet_eq (c := '.') hjf, Option.some_bind] at h
          have hjt2 : pyIdx (b.set jf '.').length tp = some jt := by
            rw [List.length_set]; exact hjt
          rw [pySet_eq (c := s) hjt2, Option.map_some'] at h
          obtain hh := Option.some.inj h
          exact ⟨jf, jt, hjf, hjt, hcfs ▸ hcf, hcell,
            (congrArg Prod.snd hh).symm⟩
        · have hef : ¬ e = true := by
            rw [← he]
            simp [hcell]
          rw [if_neg hef] at h
          obtain hh := Option.some.inj h
          rw [hok] at hh
          have hcontra : (false : Bool) = true := congrArg Prod.fst hh
          exact Bool.noConfusion hcontra
    · rw [if_neg hcfs] at h
      obtain hh := Option.some.inj h
      rw [hok] at hh
      have hcontra : (false : Bool) = true := congrArg Prod.fst hh
      exact Bool.noConfusion hcontra

/-! ### Field lemmas and congruences -/

theorem setPl_board (st : GameState) (w : Who) (pl : PlayerState) :
    (setPl st w pl).board = st.board := by cases w <;> rfl

theorem setPl_current (st : GameState) (w : Who) (pl : PlayerState) :
    (setPl st w pl).current = st.current := by cases w <;> rfl

theorem setPl_phase (st : GameState) (w : Who) (pl : PlayerState) :
    (setPl st w pl).current_phase = st.current_phase := by cases w <;> rfl

theorem setPl_selected (st : GameState) (w : Who) (pl : PlayerState) :
    (setPl st w pl).selected_piece = st.selected_piece := by cases w <;> rfl

theorem setPl_history (st : GameState) (w : Who) (pl : PlayerState) :
    (setPl st w pl).game_history = st.game_history := by cases w <;> rfl

theorem getPl_congr {stA stB : GameState} (h1 : stA.player1 = stB.player1)
    (h2 : stA.player2 = stB.player2) (w : Who) :
    getPl stA w = getPl stB w := by
  cases w
  · exact h1
  · exact h2

/-- The win check only reads the players, the board, the current slot and
the phase. -/
theorem check_win_congr {stA stB : GameState}
    (h1 : stA.player1 = stB.player1) (h2 : stA.player2 = stB.player2)
    (h3 : stA.board = stB.board) (h4 : stA.current = stB.current)
    (h5 : stA.current_phase = stB.current_phase) :
    check_win_condition stA = check_win_condition stB := by
  obtain ⟨a1, a2, ab, ac, ap, asel, ah⟩ := stA
  obtain ⟨b1, b2, bb, bc, bp, bsel, bh⟩ := stB
  simp only [] at h1 h2 h3 h4 h5
  subst h1; subst h2; subst h3; subst h4; subst h5
  have hg : ∀ l, any_opponent_move ⟨a1, a2, ab, ac, ap, asel, ah⟩ l =
      any_opponent_move ⟨a1, a2, ab, ac, ap, bsel, bh⟩ l := by
    intro l
    induction l with
    | nil => rfl
    | cons pos rest ih =>
      simp only [any_opponent_move]
      rw [ih]
      rfl
  simp only [check_win_condition, check_win_rest]
  rw [hg]
  rfl

theorem is_mill_some_of_pyIdx {b : Board} {p : Int} {j : Nat}
    (h : pyIdx b.length p = some j) :
    ∃ m, is_position_part_of_mill b p = some m := by
  rw [is_position_part_of_mill, who_on_position, pyGet_eq h, Option.map_some']
  exact ⟨_, rfl⟩

theorem update_game_phase_spec {stX stY : GameState}
    (h : update_game_phase stX = some stY) :
    ∃ w2, check_win_condition stX = some w2 ∧
      stY.player1 = stX.player1 ∧ stY.player2 = stX.player2 ∧
      stY.board = stX.board ∧ stY.current = stX.current ∧
      stY.selected_piece = stX.selected_piece ∧
      stY.game_history = stX.game_history ∧
      stY.current_phase = (if w2 then GamePhase.GAME_OVER
        else if (current_player stX).pieces_in_hand > 0 then GamePhase.PLACING
        else if (current_player stX).pieces_on_board = 3 then GamePhase.FLYING
        else GamePhase.MOVING) := by
  rw [update_game_phase] at h
  cases hw2 : check_win_condition stX with
  | none => rw [hw2] at h; cases h
  | some w2 =>
    rw [hw2, Option.map_some'] at h
    obtain hh := (Option.some.inj h).symm
    subst hh
    refine ⟨w2, rfl, ?_⟩
    split_ifs <;> exact ⟨rfl, rfl, rfl, rfl, rfl, rfl, rfl⟩

theorem finalize_turn_fields {st : GameState} {p : Int} {st3 : GameState}
    (h : finalize_turn st p = some st3) :
    st3.player1 = st.player1 ∧ st3.player2 = st.player2 ∧
    st3.board = st.board ∧ st3.selected_piece = st.selected_piece ∧
    st3.game_history = st.game_history := by
  rw [finalize_turn] at h
  cases hw : check_win_condition st with
  | none => rw [hw] at h; cases h
  | some w =>
    rw [hw, Option.some_bind] at h
    by_cases hwt : w = true
    · rw [if_pos hwt] at h
      obtain hh := (Option.some.inj h).symm
      subst hh
      exact ⟨rfl, rfl, rfl, rfl, rfl⟩
    · rw [if_neg hwt] at h
      cases hm : is_position_part_of_mill st.board p with
      | none => rw [hm] at h; cases h
      | some m =>
        rw [hm, Option.some_bind] at h
        by_cases hmt : m = true
        · rw [if_pos hmt] at h
          obtain hh := (Option.some.inj h).symm
          subst hh
          exact ⟨rfl, rfl, rfl, rfl, rfl⟩
        · rw [if_neg hmt] at h
          obtain ⟨w2, _, hu1, hu2, hu3, _, hu5, hu6, _⟩ :=
            update_game_phase_spec h
          exact ⟨hu1, hu2, hu3, hu5, hu6⟩

/-- The shared epilogue, phrased over the observable state `st2` reached
after a successful action from `st`: first the win check, then the mill
check at the acted-on position, else turn switch plus phase recomputation. -/
theorem finalize_bridge {st st1 st2 st3 : GameState} {p : Int} {j : Nat}
    (hf : finalize_turn st1 p = some st3)
    (hj : pyIdx st1.board.length p = some j)
    (hp1 : st2.player1 = st3.player1) (hp2 : st2.player2 = st3.player2)
    (hb : st2.board = st3.board) (hcur : st2.current = st3.current)
    (hph : st2.current_phase = st3.current_phase)
    (hcur1 : st1.current = st.current)
    (hph1 : st1.current_phase = st.current_phase) :
    ∃ w m,
      check_win_condition
        { st2 with
          current := st.current, current_phase := st.current_phase } =
        some w ∧
      is_position_part_of_mill st2.board p = some m ∧
      (w = true → st2.current = st.current ∧
        st2.current_phase = .GAME_OVER) ∧
      (w = false → m = true → st2.current = st.current ∧
        st2.current_phase = .REMOVING_PIECE) ∧
      (w = false → m = false → st2.current = otherWho st.current ∧
        ∃ w2, check_win_condition
            { st2 with current_phase := st.current_phase } = some w2 ∧
          st2.current_phase = (if w2 then GamePhase.GAME_OVER
            else if (current_player st2).pieces_in_hand > 0 then
              GamePhase.PLACING
            else if (current_player st2).pieces_on_board = 3 then
              GamePhase.FLYING
            else GamePhase.MOVING)) := by
  obtain ⟨hf1, hf2, hf3, hf4, hf5⟩ := finalize_turn_fields hf
  have hmb : st2.board = st1.board := by rw [hb, hf3]
  obtain ⟨m, hm⟩ := is_mill_some_of_pyIdx
    (show pyIdx st2.board.length p = some j by rw [hmb]; exact hj)
  have hm1 : is_position_part_of_mill st1.board p = some m := by
    rw [← hmb]; exact hm
  have hcw : check_win_condition
      { st2 with
        current := st.current, current_phase := st.current_phase } =
      check_win_condition st1 :=
    check_win_congr (by rw [hp1, hf1]) (by rw [hp2, hf2]) (by rw [hb, hf3])
      hcur1.symm hph1.symm
  rw [finalize_turn] at hf
  cases hwc : check_win_condition st1 with
  | none => rw [hwc] at hf; cases hf
  | some w =>
    rw [hwc, Option.some_bind] at hf
    refine ⟨w, m, by rw [hcw]; exact hwc, hm, ?_, ?_, ?_⟩
    · intro hwt
      rw [if_pos hwt] at hf
      have hh : st3 = { st1 with current_phase := .GAME_OVER } :=
        (Option.some.inj hf).symm
      constructor
      · rw [hcur, hh]; exact hcur1
      · rw [hph, hh]
    · intro hwf hmt
      rw [hwf, if_neg (by decide), hm1, Option.some_bind, hmt,
        if_pos rfl] at hf
      have hh : st3 = { st1 with current_phase := .REMOVING_PIECE } :=
        (Option.some.inj hf).symm
      exact ⟨by rw [hcur, hh]; exact hcur1, by rw [hph, hh]⟩
    · intro hwf hmf
      rw [hwf, if_neg (by decide), hm1, Option.some_bind, hmf,
        if_neg (by decide)] at hf
      obtain ⟨w2, hw2, hu1, hu2, hu3, hu4, hu5, hu6, hu7⟩ :=
        update_game_phase_spec hf
      constructor
      · rw [hcur, hu4]
        show otherWho st1.current = otherWho st.current
        rw [hcur1]
      · refine ⟨w2, ?_, ?_⟩
        · have hcw2 : check_win_condition
              { st2 with current_phase := st.current_phase } =
              check_win_condition (switch_player st1) :=
            check_win_congr (by rw [hp1, hu1]) (by rw [hp2, hu2])
              (by rw [hb, hu3]) (by rw [hcur, hu4]) hph1.symm
          rw [hcw2]; exact hw2
        · have hcp : current_player st2 =
              current_player (switch_player st1) := by
            rw [current_player, current_player,
              show st2.current = (switch_player st1).current from by
                rw [hcur, hu4]]
            exact getPl_congr (by rw [hp1, hu1]) (by rw [hp2, hu2]) _
          rw [hph, hu7, hcp]

/-! ### Success extraction for the three piece-moving handlers -/

theorem handle_placing_true {st : GameState} {p : Int} {st2 : GameState}
    (h : handle_placing st p = some (true, st2)) :
    ∃ j st3, pyIdx st.board.length p = some j ∧ cellAt st.board j = '.' ∧
      finalize_turn
        (setPl
          { st with
            board := st.board.set j (current_player st).player_symbol }
          st.current (place_piece (current_player st)).2) p = some st3 ∧
      st2 = st3 := by
  rw [handle_placing] at h
  simp only [] at h
  cases ha : add_player_piece st.board p (current_player st).player_symbol with
  | none => rw [ha] at h; cases h
  | some r =>
    rw [ha, Option.some_bind] at h
    by_cases hr : r.1 = true
    · rw [if_pos hr] at h
      obtain ⟨j, hj, hcell, hb2⟩ := add_player_piece_true ha hr
      rw [hb2] at h
      cases hf : finalize_turn
          (setPl
            { st with
              board := st.board.set j (current_player st).player_symbol }
            st.current (place_piece (current_player st)).2) p with
      | none => rw [hf] at h; cases h
      | some st3 =>
        rw [hf, Option.map_some'] at h
        exact ⟨j, st3, hj, hcell, hf,
          (congrArg Prod.snd (Option.some.inj h)).symm⟩
    · rw [if_neg hr] at h
      have hcontra : (false : Bool) = true :=
        congrArg Prod.fst (Option.some.inj h)
      exact Bool.noConfusion hcontra

theorem handle_moving_true {st : GameState} {p : Int} {st2 : GameState}
    {sel : Int} (hsel : st.selected_piece = some sel) (hps : p ≠ sel)
    (h : handle_moving st p = some (true, st2)) :
    ∃ jf jt st3, pyIdx st.board.length sel = some jf ∧
      pyIdx st.board.length p = some jt ∧
      cellAt st.board jf = (current_player st).player_symbol ∧
      cellAt st.board jt = '.' ∧
      finalize_turn
        { st with
          board :=
            (st.board.set jf '.').set jt (current_player st).player_symbol,
          selected_piece := some sel } p = some st3 ∧
      st2 = { st3 with selected_piece := none } := by
  rw [handle_moving, hsel] at h
  simp only [] at h
  rw [if_neg hps] at h
  cases hm : move_player_piece st.board sel p
      (current_player st).player_symbol with
  | none => rw [hm] at h; cases h
  | some r =>
    rw [hm, Option.some_bind] at h
    by_cases hr : r.1 = true
    · rw [if_pos hr] at h
      obtain ⟨jf, jt, hjf, hjt, hcf, hct, hb2⟩ := move_player_piece_true hm hr
      rw [hb2] at h
      cases hf : finalize_turn
          { st with
            board :=
              (st.board.set jf '.').set jt (current_player st).player_symbol,
            selected_piece := some sel } p with
      | none => rw [hf] at h; cases h
      | some st3 =>
        rw [hf, Option.map_some'] at h
        exact ⟨jf, jt, st3, hjf, hjt, hcf, hct, hf,
          (congrArg Prod.snd (Option.some.inj h)).symm⟩
    · rw [if_neg hr] at h
      have hcontra : (false : Bool) = true :=
        congrArg Prod.fst (Option.some.inj h)
      exact Bool.noConfusion hcontra

theorem handle_flying_true {st : GameState} {p : Int} {st2 : GameState}
    {sel : Int} (hsel : st.selected_piece = some sel) (hps : p ≠ sel)
    (h : handle_flying st p = some (true, st2)) :
    ∃ jf jt st3, pyIdx st.board.length sel = some jf ∧
      pyIdx st.board.length p = some jt ∧
      cellAt st.board jf = (current_player st).player_symbol ∧
      cellAt st.board jt = '.' ∧
      finalize_turn
        { st with
          board :=
            (st.board.set jf '.').set jt (current_player st).player_symbol,
          selected_piece := some sel } p = some st3 ∧
      st2 = { st3 with selected_piece := none } := by
  rw [handle_flying, hsel] at h
  simp only [] at h
  rw [if_neg hps] at h
  cases hm : fly_player_piece st.board sel p
      (current_player st).player_symbol with
  | none => rw [hm] at h; cases h
  | some r =>
    rw [hm, Option.some_bind] at h
    by_cases hr : r.1 = true
    · rw [if_pos hr] at h
      obtain ⟨jf, jt, hjf, hjt, hcf, hct, hb2⟩ := fly_player_piece_true hm hr
      rw [hb2] at h
      cases hf : finalize_turn
          { st with
            board :=
              (st.board.set jf '.').set jt (current_player st).player_symbol,
            selected_piece := some sel } p with
      | none => rw [hf] at h; cases h
      | some st3 =>
        rw [hf, Option.map_some'] at h
        exact ⟨jf, jt, st3, hjf, hjt, hcf, hct, hf,
          (congrArg Prod.snd (Option.some.inj h)).symm⟩
    · rw [if_neg hr] at h
      have hcontra : (false : Bool) = true :=
        congrArg Prod.fst (Option.some.inj h)
      exact Bool.noConfusion hcontra

/-- Counterexample for C5: in `cexMillWin` the placement at 2 completes the
mill `[0, 1, 2]` for the acting player, yet the phase becomes `GAME_OVER`
(the win check of `finalize_turn` runs first), not `REMOVING_PIECE`. -/
theorem mill_to_game_over_counterexample :
    (handle_action cexMillWin 2).map (fun r => (r.1, r.2.current_phase)) =
        some (true, .GAME_OVER) ∧
      (handle_action cexMillWin 2).map
          (fun r => is_position_part_of_mill r.2.board 2) =
        some (some true) := by
  decide

/-- C5 amended: after every successful placement, or an actual move or fly
of a selected piece, the epilogue first evaluates the win condition — if it
holds the phase becomes `GAME_OVER` with the player unchanged; otherwise a
completed mill at the acted-on position yields `REMOVING_PIECE` with the
player unchanged; otherwise the player is switched and the phase is
recomputed (game over, else placing on pieces in hand, else flying on
exactly 3 on-board pieces, else moving). -/
theorem finalize_after_action_spec :
    ∀ (st : GameState) (p : Int) (st2 : GameState),
      (st.current_phase = .PLACING ∨
        ((st.current_phase = .MOVING ∨ st.current_phase = .FLYING) ∧
          ∃ s, st.selected_piece = some s ∧ p ≠ s)) →
      handle_action st p = some (true, st2) →
      ∃ w m,
        check_win_condition
          { st2 with
            current := st.current, current_phase := st.current_phase } =
          some w ∧
        is_position_part_of_mill st2.board p = some m ∧
        (w = true → st2.current = st.current ∧
          st2.current_phase = .GAME_OVER) ∧
        (w = false → m = true → st2.current = st.current ∧
          st2.current_phase = .REMOVING_PIECE) ∧
        (w = false → m = false → st2.current = otherWho st.current ∧
          ∃ w2, check_win_condition
              { st2 with current_phase := st.current_phase } = some w2 ∧
            st2.current_phase = (if w2 then GamePhase.GAME_OVER
              else if (current_player st2).pieces_in_hand > 0 then
                GamePhase.PLACING
              else if (current_player st2).pieces_on_board = 3 then
                GamePhase.FLYING
              else GamePhase.MOVING)) := by
  intro st p st2 hcase hact
  rcases hcase with hph | ⟨hmf, s, hsel, hps⟩
  · rw [handle_action_eq_placing p hph] at hact
    obtain ⟨j, st3, hj, hcell, hf, hst2⟩ := handle_placing_true hact
    refine finalize_bridge (j := j) hf ?_ (by rw [hst2]) (by rw [hst2])
      (by rw [hst2]) (by rw [hst2]) (by rw [hst2]) ?_ ?_
    · rw [setPl_board]
      dsimp only
      rw [List.length_set]
      exact hj
    · rw [setPl_current]
      rfl
    · rw [setPl_phase]
      rfl
  · have hsel0 : (record_game_action st p).selected_piece = some s := hsel
    rcases hmf with hphM | hphF
    · rw [handle_action_eq_moving p hphM] at hact
      obtain ⟨jf, jt, st3, hjf, hjt, hcf, hct, hf, hst2⟩ :=
        handle_moving_true hsel0 hps hact
      refine finalize_bridge (j := jt) hf ?_ (by rw [hst2]) (by rw [hst2])
        (by rw [hst2]) (by rw [hst2]) (by rw [hst2]) rfl rfl
      dsimp only
      rw [List.length_set, List.length_set]
      exact hjt
    · rw [handle_action_eq_flying p hphF] at hact
      obtain ⟨jf, jt, st3, hjf, hjt, hcf, hct, hf, hst2⟩ :=
        handle_flying_true hsel0 hps hact
      refine finalize_bridge (j := jt) hf ?_ (by rw [hst2]) (by rw [hst2])
        (by rw [hst2]) (by rw [hst2]) (by rw [hst2]) rfl rfl
      dsimp only
      rw [List.length_set, List.length_set]
      exact hjt

/-! ### Invariant preservation (C4) -/

theorem InvParts_swap {pl1 pl2 : PlayerState} {b : Board}
    (h : InvParts pl1 pl2 b) : InvParts pl2 pl1 b := by
  obtain ⟨hl, h1, h2, h12, hall, hc1, hc2⟩ := h
  refine ⟨hl, h2, h1, Ne.symm h12, ?_, hc2, hc1⟩
  intro c hc
  rcases hall c hc with h | h | h
  · exact Or.inl h
  · exact Or.inr (Or.inr h)
  · exact Or.inr (Or.inl h)

theorem InvParts_place_core {plA plB : PlayerState} {b : Board} {j : Nat}
    (h : InvParts plA plB b) (hj : j < b.length) (hcell : cellAt b j = '.')
    (hhand : 0 < plA.pieces_in_hand) :
    InvParts (place_piece plA).2 plB (b.set j plA.player_symbol) := by
  obtain ⟨hl, h1, h2, h12, hall, hc1, hc2⟩ := h
  have hpp : (place_piece plA).2 =
      { plA with pieces_in_hand := plA.pieces_in_hand - 1,
                 pieces_on_board := plA.pieces_on_board + 1 } := by
    rw [place_piece, if_pos hhand]
  rw [hpp]
  refine ⟨by rw [List.length_set]; exact hl, h1, h2, h12, ?_, ?_, ?_⟩
  · intro c hc
    rcases List.mem_or_eq_of_mem_set hc with hc | hc
    · exact hall c hc
    · exact Or.inr (Or.inl hc)
  · show countSym (b.set j plA.player_symbol) plA.player_symbol =
      plA.pieces_on_board + 1
    have t := count_set_add b j plA.player_symbol plA.player_symbol hj
    rw [hcell, if_neg (Ne.symm h1), if_pos rfl, hc1] at t
    omega
  · show countSym (b.set j plA.player_symbol) plB.player_symbol =
      plB.pieces_on_board
    have t := count_set_add b j plA.player_symbol plB.player_symbol hj
    rw [hcell, if_neg (Ne.symm h2), if_neg h12, hc2] at t
    omega

theorem InvParts_move_core {plA plB : PlayerState} {b : Board} {jf jt : Nat}
    (h : InvParts plA plB b) (hjf : jf < b.length) (hjt : jt < b.length)
    (hcf : cellAt b jf = plA.player_symbol) (hct : cellAt b jt = '.') :
    InvParts plA plB ((b.set jf '.').set jt plA.player_symbol) := by
  obtain ⟨hl, h1, h2, h12, hall, hc1, hc2⟩ := h
  have hne : jf ≠ jt := fun hEq => h1 (by rw [← hcf, hEq, hct])
  have hjt2 : jt < (b.set jf '.').length := by rw [List.length_set]; exact hjt
  have hmid : cellAt (b.set jf '.') jt = '.' := by
    rw [cellAt_set_ne hne '.', hct]
  refine ⟨by rw [List.length_set, List.length_set]; exact hl, h1, h2, h12,
    ?_, ?_, ?_⟩
  · intro c hc
    rcases List.mem_or_eq_of_mem_set hc with hc | hc
    · rcases List.mem_or_eq_of_mem_set hc with hc | hc
      · exact hall c hc
      · exact Or.inl hc
    · exact Or.inr (Or.inl hc)
  · have t1 := count_set_add b jf '.' plA.player_symbol hjf
    rw [hcf, if_pos rfl, if_neg (Ne.symm h1), hc1] at t1
    have t2 := count_set_add (b.set jf '.') jt plA.player_symbol
      plA.player_symbol hjt2
    rw [hmid, if_neg (Ne.symm h1), if_pos rfl] at t2
    omega
  · have t1 := count_set_add b jf '.' plB.player_symbol hjf
    rw [hcf, if_neg h12, if_neg (Ne.symm h2), hc2] at t1
    have t2 := count_set_add (b.set jf '.') jt plA.player_symbol
      plB.player_symbol hjt2
    rw [hmid, if_neg (Ne.symm h2), if_neg h12] at t2
    omega

theorem InvParts_remove_core {plA plB : PlayerState} {b : Board} {j : Nat}
    (h : InvParts plA plB b) (hj : j < b.length)
    (hcell : cellAt b j = plB.player_symbol) :
    InvParts plA (remove_piece plB).2 (b.set j '.') := by
  obtain ⟨hl, h1, h2, h12, hall, hc1, hc2⟩ := h
  have hon : 0 < plB.pieces_on_board := by
    rw [← hc2]
    exact count_pos_of_cellAt hj hcell
  have hrp : (remove_piece plB).2 =
      { plB with pieces_on_board := plB.pieces_on_board - 1 } := by
    rw [remove_piece, if_pos hon]
  rw [hrp]
  refine ⟨by rw [List.length_set]; exact hl, h1, h2, h12, ?_, ?_, ?_⟩
  · intro c hc
    rcases List.mem_or_eq_of_mem_set hc with hc | hc
    · exact hall c hc
    · exact Or.inl hc
  · show countSym (b.set j '.') plA.player_symbol = plA.pieces_on_board
    have t := count_set_add b j '.' plA.player_symbol hj
    rw [hcell, if_neg (Ne.symm h12), if_neg (Ne.symm h1), hc1] at t
    omega
  · show countSym (b.set j '.') plB.player_symbol =
      plB.pieces_on_board - 1
    have t := count_set_add b j '.' plB.player_symbol hj
    rw [hcell, if_pos rfl, if_neg (Ne.symm h2), hc2] at t
    omega

theorem Inv_record (st : GameState) (p : Int) :
    Inv (record_game_action st p) ↔ Inv st := Iff.rfl

theorem Inv_selected (st : GameState) (x : Option Int) :
    Inv { st with selected_piece := x } ↔ Inv st := Iff.rfl

/-- `finalize_turn` preserves the structural invariant (it changes only
`current` and `current_phase`) and re-establishes the hand condition: the
`PLACING` phase is only chosen when the new current player has a piece in
hand. -/
theorem finalize_inv {st1 : GameState} {p : Int} {st3 : GameState}
    (hB : InvB st1) (hf : finalize_turn st1 p = some st3) : Inv st3 := by
  obtain ⟨hf1, hf2, hf3, _, _⟩ := finalize_turn_fields hf
  have hB3 : InvB st3 := by rw [InvB, hf1, hf2, hf3]; exact hB
  refine ⟨hB3, ?_⟩
  rw [finalize_turn] at hf
  cases hw : check_win_condition st1 with
  | none => rw [hw] at hf; cases hf
  | some w =>
    rw [hw, Option.some_bind] at hf
    by_cases hwt : w = true
    · rw [if_pos hwt] at hf
      have hh : st3 = { st1 with current_phase := .GAME_OVER } :=
        (Option.some.inj hf).symm
      intro hph
      rw [hh] at hph
      cases hph
    · rw [if_neg hwt] at hf
      cases hm : is_position_part_of_mill st1.board p with
      | none => rw [hm] at hf; cases hf
      | some m =>
        rw [hm, Option.some_bind] at hf
        by_cases hmt : m = true
        · rw [if_pos hmt] at hf
          have hh : st3 = { st1 with current_phase := .REMOVING_PIECE } :=
            (Option.some.inj hf).symm
          intro hph
          rw [hh] at hph
          cases hph
        · rw [if_neg hmt] at hf
          obtain ⟨w2, hw2, hu1, hu2, hu3, hu4, hu5, hu6, hu7⟩ :=
            update_game_phase_spec hf
          intro hph
          rw [hu7] at hph
          have hcp : current_player st3 =
              current_player (switch_player st1) := by
            rw [current_player, current_player, hu4]
            exact getPl_congr hu1 hu2 _
          rw [hcp]
          split_ifs at hph with h1 h2 h3
          exact h2

theorem InvB_setPl_place {st : GameState} {j : Nat}
    (hB : InvB st) (hj : j < st.board.length)
    (hcell : cellAt st.board j = '.')
    (hhand : 0 < (current_player st).pieces_in_hand) :
    InvB (setPl
      { st with board := st.board.set j (current_player st).player_symbol }
      st.current (place_piece (current_player st)).2) := by
  cases hcur : st.current
  case P1 =>
    have hc : current_player st = st.player1 := by
      rw [current_player, hcur]
      rfl
    show InvParts (place_piece (current_player st)).2 st.player2
      (st.board.set j (current_player st).player_symbol)
    rw [hc]
    exact InvParts_place_core hB hj hcell (by rw [← hc]; exact hhand)
  case P2 =>
    have hc : current_player st = st.player2 := by
      rw [current_player, hcur]
      rfl
    show InvParts st.player1 (place_piece (current_player st)).2
      (st.board.set j (current_player st).player_symbol)
    rw [hc]
    exact InvParts_swap
      (InvParts_place_core (InvParts_swap hB) hj hcell
        (by rw [← hc]; exact hhand))

theorem InvB_setPl_remove {st : GameState} {j : Nat}
    (hB : InvB st) (hj : j < st.board.length)
    (hcell : cellAt st.board j = (opponent_player st).player_symbol) :
    InvB (setPl { st with board := st.board.set j '.' }
      (otherWho st.current) (remove_piece (opponent_player st)).2) := by
  cases hcur : st.current
  case P1 =>
    have hc : opponent_player st = st.player2 := by
      rw [opponent_player, hcur]
      rfl
    show InvParts st.player1 (remove_piece (opponent_player st)).2
      (st.board.set j '.')
    rw [hc]
    rw [hc] at hcell
    exact InvParts_remove_core hB hj hcell
  case P2 =>
    have hc : opponent_player st = st.player1 := by
      rw [opponent_player, hcur]
      rfl
    show InvParts (remove_piece (opponent_player st)).2 st.player2
      (st.board.set j '.')
    rw [hc]
    rw [hc] at hcell
    exact InvParts_swap (InvParts_remove_core (InvParts_swap hB) hj hcell)

theorem InvB_board_move {st : GameState} {jf jt : Nat}
    (hB : InvB st) (hjf : jf < st.board.length) (hjt : jt < st.board.length)
    (hcf : cellAt st.board jf = (current_player st).player_symbol)
    (hct : cellAt st.board jt = '.') :
    InvParts st.player1 st.player2
      ((st.board.set jf '.').set jt (current_player st).player_symbol) := by
  cases hcur : st.current
  case P1 =>
    have hc : current_player st = st.player1 := by
      rw [current_player, hcur]
      rfl
    rw [hc]
    rw [hc] at hcf
    exact InvParts_move_core hB hjf hjt hcf hct
  case P2 =>
    have hc : current_player st = st.player2 := by
      rw [current_player, hcur]
      rfl
    rw [hc]
    rw [hc] at hcf
    exact InvParts_swap
      (InvParts_move_core (InvParts_swap hB) hjf hjt hcf hct)

theorem removal_filter_subset {st : GameState} {ps l : List Int}
    (h : removal_filter st ps = some l) : ∀ q ∈ l, q ∈ ps := by
  induction ps generalizing l with
  | nil =>
    obtain rfl : ([] : List Int) = l := Option.some.inj h
    intro q hq
    exact absurd hq (List.not_mem_nil q)
  | cons pos rest ih =>
    rw [removal_filter] at h
    cases hm : is_position_part_of_mill st.board pos with
    | none => rw [hm] at h; cases h
    | some m =>
      rw [hm, Option.some_bind] at h
      cases hrf : removal_filter st rest with
      | none => rw [hrf] at h; cases h
      | some l2 =>
        rw [hrf, Option.map_some'] at h
        obtain hh := (Option.some.inj h).symm
        intro q hq
        rw [hh] at hq
        by_cases hmt : m = true
        · rw [if_pos hmt] at hq
          exact List.mem_cons_of_mem pos (ih hrf q hq)
        · rw [if_neg hmt] at hq
          rcases List.mem_cons.mp hq with hq | hq
          · rw [hq]
            exact List.mem_cons_self pos rest
          · exact List.mem_cons_of_mem pos (ih hrf q hq)

theorem get_allowed_removals_subset {st : GameState} {allowed : List Int}
    (h : get_allowed_removals st = some allowed) :
    ∀ q ∈ allowed,
      q ∈ get_players_positions st.board (opponent_player st).player_symbol := by
  rw [get_allowed_removals] at h
  cases hrf : removal_filter st
      (get_players_positions st.board (opponent_player st).player_symbol) with
  | none => rw [hrf] at h; cases h
  | some nm =>
    rw [hrf, Option.map_some'] at h
    obtain hh := (Option.some.inj h).symm
    intro q hq
    rw [hh] at hq
    by_cases hne : nm ≠ []
    · rw [if_pos hne] at hq
      exact removal_filter_subset hrf q hq
    · rw [if_neg hne] at hq
      exact hq

theorem handle_removing_piece_true {st : GameState} {p : Int}
    {st2 : GameState} (h : handle_removing_piece st p = some (true, st2)) :
    ∃ allowed j st3, get_allowed_removals st = some allowed ∧ p ∈ allowed ∧
      pyIdx st.board.length p = some j ∧ cellAt st.board j ≠ '.' ∧
      finalize_turn
        (setPl { st with board := st.board.set j '.' }
          (otherWho st.current) (remove_piece (opponent_player st)).2) p =
        some st3 ∧
      st2 = st3 := by
  rw [handle_removing_piece] at h
  simp only [] at h
  cases hg : get_allowed_removals st with
  | none => rw [hg] at h; cases h
  | some allowed =>
    rw [hg, Option.some_bind] at h
    by_cases hmem : p ∈ allowed
    · rw [if_pos hmem] at h
      cases hrm : remove_player_piece st.board p with
      | none => rw [hrm] at h; cases h
      | some r =>
        rw [hrm, Option.some_bind] at h
        by_cases hr : r.1 = true
        · rw [if_pos hr] at h
          obtain ⟨j, hj, hcell, hb2⟩ := remove_player_piece_true hrm hr
          rw [hb2] at h
          cases hw : check_win_condition
              (setPl { st with board := st.board.set j '.' }
                (otherWho st.current)
                (remove_piece (opponent_player st)).2) with
          | none => rw [hw] at h; cases h
          | some w =>
            rw [hw, Option.some_bind] at h
            cases hf : finalize_turn
                (setPl { st with board := st.board.set j '.' }
                  (otherWho st.current)
                  (remove_piece (opponent_player st)).2) p with
            | none => rw [hf] at h; cases h
            | some st3 =>
              rw [hf, Option.map_some'] at h
              exact ⟨allowed, j, st3, rfl, hmem, hj, hcell, hf,
                (congrArg Prod.snd (Option.some.inj h)).symm⟩
        · rw [if_neg hr] at h
          have hcontra : (false : Bool) = true :=
            congrArg Prod.fst (Option.some.inj h)
          exact Bool.noConfusion hcontra
    · rw [if_neg hmem] at h
      have hcontra : (false : Bool) = true :=
        congrArg Prod.fst (Option.some.inj h)
      exact Bool.noConfusion hcontra

theorem handle_moving_select {st : GameState} {p : Int} {ok : Bool}
    {st2 : GameState} (hsel : st.selected_piece = none)
    (h : handle_moving st p = some (ok, st2)) :
    st2 = { st with selected_piece := some p } ∨ st2 = st := by
  rw [handle_moving, hsel] at h
  simp only [] at h
  cases hg : who_on_position st.board p with
  | none => rw [hg] at h; cases h
  | some c =>
    rw [hg, Option.some_bind] at h
    by_cases hc : c = (current_player st).player_symbol
    · rw [if_pos hc] at h
      cases he : get_empty_adjacent_positions st.board p with
      | none => rw [he] at h; cases h
      | some l =>
        rw [he, Option.map_some'] at h
        by_cases hl : l ≠ []
        · rw [if_pos hl] at h
          exact Or.inl (congrArg Prod.snd (Option.some.inj h)).symm
        · rw [if_neg hl] at h
          exact Or.inr (congrArg Prod.snd (Option.some.inj h)).symm
    · rw [if_neg hc] at h
      exact Or.inr (congrArg Prod.snd (Option.some.inj h)).symm

theorem handle_flying_select {st : GameState} {p : Int} {ok : Bool}
    {st2 : GameState} (hsel : st.selected_piece = none)
    (h : handle_flying st p = some (ok, st2)) :
    st2 = { st with selected_piece := some p } ∨ st2 = st := by
  rw [handle_flying, hsel] at h
  simp only [] at h
  cases hg : who_on_position st.board p with
  | none => rw [hg] at h; cases h
  | some c =>
    rw [hg, Option.some_bind] at h
    by_cases hc : c = (current_player st).player_symbol
    · rw [if_pos hc] at h
      exact Or.inl (congrArg Prod.snd (Option.some.inj h)).symm
    · rw [if_neg hc] at h
      exact Or.inr (congrArg Prod.snd (Option.some.inj h)).symm

/-- Counterexample for C4: `stAfter0` satisfies the invariant, but undoing
its one recorded action restores the empty board without restoring the
counters, so the occupied-cell total no longer matches. -/
theorem undo_breaks_invariant_counterexample :
    Inv stAfter0 ∧ (undo_action stAfter0).1 = true ∧
      occupiedCount (undo_action stAfter0).2.board ≠
        (undo_action stAfter0).2.player1.pieces_on_board +
          (undo_action stAfter0).2.player2.pieces_on_board := by
  decide

/-- C4 amended: the strengthened invariant `Inv` — 24 cells, distinct
non-empty player symbols, per-player symbol counts equal to the on-board
counters, and the placing phase implying a non-empty hand — holds for a
fresh game, is preserved by `handle_action` in every phase, and implies the
claimed equality between occupied cells and the counter sum; `undo_action`
does not preserve it (it restores the board but not the counters). -/
theorem invariant_spec :
    (∀ p1 p2 : PlayerState, p1.player_symbol ≠ '.' → p2.player_symbol ≠ '.' →
      p1.player_symbol ≠ p2.player_symbol → Inv (initGame p1 p2)) ∧
    (∀ (st : GameState) (p : Int) (ok : Bool) (st2 : GameState),
      Inv st → handle_action st p = some (ok, st2) → Inv st2) ∧
    (∀ st : GameState, Inv st →
      occupiedCount st.board =
        st.player1.pieces_on_board + st.player2.pieces_on_board) := by
  refine ⟨?_, ?_, ?_⟩
  · intro p1 p2 hs1 hs2 h12
    have hcount : ∀ s : Char, s ≠ '.' →
        countSym (List.replicate 24 '.') s = 0 := by
      intro s hs
      rw [countSym, List.count_replicate, if_neg]
      intro hcontra
      exact hs (beq_iff_eq.mp hcontra).symm
    refine ⟨⟨?_, hs1, hs2, h12, ?_, ?_, ?_⟩, ?_⟩
    · show (List.replicate 24 '.').length = 24
      rw [List.length_replicate]
    · intro c hc
      exact Or.inl (List.eq_of_mem_replicate hc)
    · exact hcount p1.player_symbol hs1
    · exact hcount p2.player_symbol hs2
    · intro _
      show (0 : Nat) < 9
      decide
  · intro st p ok st2 hInv hact
    have hInvR : Inv (record_game_action st p) := (Inv_record st p).mpr hInv
    cases hph : st.current_phase
    case GAME_OVER =>
      rw [handle_action_eq_gameover p hph] at hact
      have hh : st = st2 := congrArg Prod.snd (Option.some.inj hact)
      rw [← hh]
      exact hInv
    case PLACING =>
      rw [handle_action_eq_placing p hph] at hact
      by_cases hok : ok = true
      · rw [hok] at hact
        obtain ⟨j, st3, hj, hcell, hf, hst2⟩ := handle_placing_true hact
        have hhand : 0 <
            (current_player (record_game_action st p)).pieces_in_hand :=
          hInvR.2 hph
        have hB1 := InvB_setPl_place
          hInvR.1 (pyIdx_lt hj) hcell hhand
        rw [hst2]
        exact finalize_inv hB1 hf
      · have hokf : ok = false := by revert hok; cases ok <;> simp
        rw [hokf] at hact
        rw [handle_placing_false hact]
        exact hInvR
    case MOVING =>
      rw [handle_action_eq_moving p hph] at hact
      cases hsel : st.selected_piece with
      | none =>
        have hselR : (record_game_action st p).selected_piece = none := hsel
        rcases handle_moving_select hselR hact with hh | hh <;> rw [hh]
        · exact (Inv_selected (record_game_action st p) (some p)).mpr hInvR
        · exact hInvR
      | some sel =>
        have hselR : (record_game_action st p).selected_piece = some sel :=
          hsel
        by_cases hps : p = sel
        · rw [handle_moving, hselR] at hact
          simp only [] at hact
          rw [if_pos hps] at hact
          have hh : st2 =
              { record_game_action st p with selected_piece := none } :=
            (congrArg Prod.snd (Option.some.inj hact)).symm
          rw [hh]
          exact (Inv_selected (record_game_action st p) none).mpr hInvR
        · by_cases hok : ok = true
          · rw [hok] at hact
            obtain ⟨jf, jt, st3, hjf, hjt, hcf, hct, hf, hst2⟩ :=
              handle_moving_true hselR hps hact
            have hB1 : InvB
                { record_game_action st p with
                  board := ((record_game_action st p).board.set jf '.').set jt
                    (current_player (record_game_action st p)).player_symbol,
                  selected_piece := some sel } :=
              InvB_board_move hInvR.1
                (pyIdx_lt hjf) (pyIdx_lt hjt) hcf hct
            rw [hst2]
            exact (Inv_selected st3 none).mpr (finalize_inv hB1 hf)
          · have hokf : ok = false := by revert hok; cases ok <;> simp
            rw [hokf] at hact
            rw [handle_moving_false hact]
            exact hInvR
    case FLYING =>
      rw [handle_action_eq_flying p hph] at hact
      cases hsel : st.selected_piece with
      | none =>
        have hselR : (record_game_action st p).selected_piece = none := hsel
        rcases handle_flying_select hselR hact with hh | hh <;> rw [hh]
        · exact (Inv_selected (record_game_action st p) (some p)).mpr hInvR
        · exact hInvR
      | some sel =>
        have hselR : (record_game_action st p).selected_piece = some sel :=
          hsel
        by_cases hps : p = sel
        · rw [handle_flying, hselR] at hact
          simp only [] at hact
          rw [if_pos hps] at hact
          have hh : st2 =
              { record_game_action st p with selected_piece := none } :=
            (congrArg Prod.snd (Option.some.inj hact)).symm
          rw [hh]
          exact (Inv_selected (record_game_action st p) none).mpr hInvR
        · by_cases hok : ok = true
          · rw [hok] at hact
            obtain ⟨jf, jt, st3, hjf, hjt, hcf, hct, hf, hst2⟩ :=
              handle_flying_true hselR hps hact
            have hB1 : InvB
                { record_game_action st p with
                  board := ((record_game_action st p).board.set jf '.').set jt
                    (current_player (record_game_action st p)).player_symbol,
                  selected_piece := some sel } :=
              InvB_board_move hInvR.1
                (pyIdx_lt hjf) (pyIdx_lt hjt) hcf hct
            rw [hst2]
            exact (Inv_selected st3 none).mpr (finalize_inv hB1 hf)
          · have hokf : ok = false := by revert hok; cases ok <;> simp
            rw [hokf] at hact
            rw [handle_flying_false hact]
            exact hInvR
    case REMOVING_PIECE =>
      rw [handle_action_eq_removing p hph] at hact
      by_cases hok : ok = true
      · rw [hok] at hact
        obtain ⟨allowed, j, st3, hg, hmem, hj, hcell, hf, hst2⟩ :=
          handle_removing_piece_true hact
        have hq := get_allowed_removals_subset hg p hmem
        obtain ⟨h0, h1lt, hcellSym⟩ := mem_gpp_range hq
        have hjj : j = p.toNat := by
          have h2 := pyIdx_of_nonneg
            (n := (record_game_action st p).board.length) h0 h1lt
          rw [hj] at h2
          exact Option.some.inj h2
        have hcellO : cellAt (record_game_action st p).board j =
            (opponent_player (record_game_action st p)).player_symbol := by
          rw [hjj]
          exact hcellSym
        have hB1 := InvB_setPl_remove
          hInvR.1 (pyIdx_lt hj) hcellO
        rw [hst2]
        exact finalize_inv hB1 hf
      · have hokf : ok = false := by revert hok; cases ok <;> simp
        rw [hokf] at hact
        rw [handle_removing_piece_false hact]
        exact hInvR
  · intro st hInv
    obtain ⟨⟨hl, h1, h2, h12, hall, hc1, hc2⟩, _⟩ := hInv
    rw [← hc1, ← hc2]
    exact occupied_eq_counts h1 h2 h12 hall

/-- Witness for C4 (amended): the invariant holds for the fresh game and is
preserved by the opening placement of `X` at 0. -/
theorem invariant_spec_witness :
    Inv stInit ∧ handle_action stInit 0 = some (true, stAfter0) ∧
      Inv stAfter0 := by
  refine ⟨?_, by decide, ?_⟩
  · exact invariant_spec.1 ⟨'X', 9, 0⟩ ⟨'O', 9, 0⟩ (by decide) (by decide)
      (by decide)
  · exact invariant_spec.2.1 stInit 0 true stAfter0
      (invariant_spec.1 ⟨'X', 9, 0⟩ ⟨'O', 9, 0⟩ (by decide) (by decide)
        (by decide))
      (by decide)

/-- Witness for C5 (amended): the opening placement of `X` at 0 completes no
mill and no win, so the player switches and the phase stays `PLACING`. -/
theorem finalize_after_action_spec_witness :
    ∃ w m,
      check_win_condition
        { stAfter0 with
          current := stInit.current, current_phase := stInit.current_phase } =
        some w ∧
      is_position_part_of_mill stAfter0.board 0 = some m ∧
      (w = true → stAfter0.current = stInit.current ∧
        stAfter0.current_phase = .GAME_OVER) ∧
      (w = false → m = true → stAfter0.current = stInit.current ∧
        stAfter0.current_phase = .REMOVING_PIECE) ∧
      (w = false → m = false → stAfter0.current = otherWho stInit.current ∧
        ∃ w2, check_win_condition
            { stAfter0 with current_phase := stInit.current_phase } =
            some w2 ∧
          stAfter0.current_phase = (if w2 then GamePhase.GAME_OVER
            else if (current_player stAfter0).pieces_in_hand > 0 then
              GamePhase.PLACING
            else if (current_player stAfter0).pieces_on_board = 3 then
              GamePhase.FLYING
            else GamePhase.MOVING)) :=
  finalize_after_action_spec stInit 0 stAfter0 (Or.inl rfl) (by decide)

end NMM
